import Mathlib

/-!
# Lantern flashlight analytics: session events

A verification development for `flashlight/analytics/analytics.go`.

The file embeds

* Go strings as byte sequences, together with the parts of the Go standard
  library the package calls or that the specification refers to
  (`url.QueryEscape`, `url.QueryUnescape`, `url.Values`, `url.ParseQuery`,
  `sort.Strings`, `strconv.Itoa`, `strconv.FormatInt`);
* the pure field-set builder `sessionVals`;
* the event sender `trackSession` as a function from the outcomes of its
  collaborators to the list of effects it performs;
* the lifecycle entry point `Start` as a small-step machine in which the
  background goroutine and the invocations of the returned `stop` closure are
  interleaved by an arbitrary schedule.
-/

namespace Analytics

/-! ## Go strings -/

/-- One byte of a Go string. -/
abbrev Byte := Fin 256

/-- Go strings are immutable byte sequences (not necessarily valid UTF-8). -/
abbrev GoString := List Byte

/-- The byte of an ASCII character literal such as `'%'`. -/
def ch (c : Char) : Byte := Fin.ofNat c.toNat

/-- The Go string of an ASCII source literal. Every literal of the package is ASCII,
so each character is one byte. -/
def str (s : String) : GoString := s.toList.map ch

/-- Go's `len(s)`: the number of bytes. -/
def len (s : GoString) : Nat := s.length

/-! ## net/url: escaping -/

/-- The error values of `net/url` that `ParseQuery` can return. -/
inductive UrlError where
  | escape (s : GoString)
  | semicolon
  deriving DecidableEq, Repr

deriving instance DecidableEq for Except

/-- Go's `shouldEscape(c, encodeQueryComponent)`: letters, digits and the marks
`-`, `_`, `.`, `~` are unreserved; in a query component every other byte is escaped. -/
def shouldEscape (c : Byte) : Bool :=
  if (ch 'a' ≤ c ∧ c ≤ ch 'z') ∨ (ch 'A' ≤ c ∧ c ≤ ch 'Z') ∨ (ch '0' ≤ c ∧ c ≤ ch '9') then
    false
  else if c = ch '-' ∨ c = ch '_' ∨ c = ch '.' ∨ c = ch '~' then
    false
  else
    true

/-- Go's `const upperhex = "0123456789ABCDEF"`. -/
def upperhex : GoString := str "0123456789ABCDEF"

/-- Go's `upperhex[i]`; the index is taken modulo 16 because both call sites pass
`c>>4` or `c&15` of a byte, which are below 16. -/
def upperhexAt (i : Nat) : Byte := upperhex.getD (i % 16) 0

/-- Go's `ishex`. -/
def ishex (c : Byte) : Bool :=
  if ch '0' ≤ c ∧ c ≤ ch '9' then true
  else if ch 'a' ≤ c ∧ c ≤ ch 'f' then true
  else if ch 'A' ≤ c ∧ c ≤ ch 'F' then true
  else false

/-- Go's `unhex`, with byte arithmetic (modulo 256). -/
def unhex (c : Byte) : Byte :=
  if ch '0' ≤ c ∧ c ≤ ch '9' then c - ch '0'
  else if ch 'a' ≤ c ∧ c ≤ ch 'f' then c - ch 'a' + 10
  else if ch 'A' ≤ c ∧ c ≤ ch 'F' then c - ch 'A' + 10
  else 0

/-- Go's `unhex(a)<<4 | unhex(b)` on bytes. -/
def unhexPair (a b : Byte) : Byte :=
  ⟨((((unhex a).val <<< 4) % 256) ||| (unhex b).val) % 256, Nat.mod_lt _ (by decide)⟩

/-- Go's `url.QueryEscape(s)`, that is `escape(s, encodeQueryComponent)`: a space
becomes `+`, a byte that `shouldEscape` becomes `%XX` in upper-case hex, every other
byte is copied. -/
def QueryEscape : GoString → GoString
  | [] => []
  | c :: s =>
    if c = ch ' ' then ch '+' :: QueryEscape s
    else if shouldEscape c then
      ch '%' :: upperhexAt (c.val >>> 4) :: upperhexAt (c.val &&& 15) :: QueryEscape s
    else c :: QueryEscape s

/-- Go's `url.QueryUnescape(s)`, that is `unescape(s, encodeQueryComponent)`: `%XX`
becomes the byte `XX`, `+` becomes a space; a `%` that is not followed by two hex
digits is an `EscapeError` carrying at most three bytes from the `%` on. Go validates
in a first pass and converts in a second; the single recursion returns the same. -/
def QueryUnescape : GoString → Except UrlError GoString
  | [] => .ok []
  | c :: s =>
    if c = ch '%' then
      match s with
      | a :: b :: rest =>
        if ishex a ∧ ishex b then
          match QueryUnescape rest with
          | .ok t => .ok (unhexPair a b :: t)
          | .error e => .error e
        else .error (.escape ((c :: s).take 3))
      | _ => .error (.escape ((c :: s).take 3))
    else
      match QueryUnescape s with
      | .ok t => .ok ((if c = ch '+' then ch ' ' else c) :: t)
      | .error e => .error e

/-! ## net/url: `Values`, `Encode`, `ParseQuery` -/

/-- Go's `url.Values`, a `map[string][]string`, as an association list with distinct
keys. The position of an entry carries no meaning: `Encode` sorts the keys. -/
abbrev Values := List (GoString × List GoString)

/-- Go's `v[key]`: the values stored under `key`, `nil` when the key is absent. -/
def Values.get : Values → GoString → List GoString
  | [], _ => []
  | (k, vs) :: m, key => if k = key then vs else Values.get m key

/-- The keys of the map (Go's `for k := range v`). -/
def Values.keys (m : Values) : List GoString := m.map Prod.fst

/-- Go's `v.Add(key, value)`: `v[key] = append(v[key], value)`. -/
def Values.Add : Values → GoString → GoString → Values
  | [], key, value => [(key, [value])]
  | (k, vs) :: m, key, value =>
    if k = key then (k, vs ++ [value]) :: m else (k, vs) :: Values.Add m key value

/-- Go's `a < b` on strings: byte-wise lexicographic order. -/
def strLess : GoString → GoString → Bool
  | [], [] => false
  | [], _ :: _ => true
  | _ :: _, [] => false
  | a :: as, b :: bs => if a < b then true else if b < a then false else strLess as bs

/-- Insertion of one string into an ascending list. -/
def insertString (k : GoString) : List GoString → List GoString
  | [] => [k]
  | x :: xs => if strLess x k then x :: insertString k xs else k :: x :: xs

/-- Go's `sort.Strings(keys)`: the keys in ascending order. -/
def sortStrings : List GoString → List GoString
  | [] => []
  | k :: ks => insertString k (sortStrings ks)

/-- The inner loop of `Values.Encode` for one key: every value is written as
`keyEscaped=QueryEscape(v)`, preceded by `&` when the buffer is not empty. -/
def encodeValues (keyEscaped : GoString) : GoString → List GoString → GoString
  | buf, [] => buf
  | buf, v :: vs =>
    encodeValues keyEscaped
      ((if 0 < len buf then buf ++ [ch '&'] else buf) ++ keyEscaped ++ [ch '='] ++ QueryEscape v)
      vs

/-- The outer loop of `Values.Encode` over the sorted keys. -/
def encodeKeys (m : Values) (keys : List GoString) : GoString :=
  keys.foldl (fun buf k => encodeValues (QueryEscape k) buf (m.get k)) []

/-- Go's `v.Encode()`: the keys are collected and sorted, then written in that order. -/
def Values.Encode (m : Values) : GoString := encodeKeys m (sortStrings m.keys)

/-- Go's `strings.Split(s, sep)` for a one-byte separator. -/
def splitOn (sep : Byte) : GoString → List GoString
  | [] => [[]]
  | c :: s =>
    if c = sep then [] :: splitOn sep s
    else
      match splitOn sep s with
      | [] => [[c]]
      | seg :: segs => (c :: seg) :: segs

/-- Go's `strings.Cut(s, sep)` for a one-byte separator: the text before and after the
first `sep`, and whether `sep` was found. -/
def cut (sep : Byte) : GoString → GoString × GoString × Bool
  | [] => ([], [], false)
  | c :: s =>
    if c = sep then ([], s, true)
    else
      match cut sep s with
      | (before, after, found) => (c :: before, after, found)

/-- One iteration of the loop of `parseQuery` on the segment `key` cut off at `&`: a
segment holding `;` sets the error, an empty segment is skipped, otherwise the segment
is cut at `=`, both halves are unescaped and the pair is appended to the map; the first
unescape error is kept. -/
def parseSegment (acc : Values × Option UrlError) (key : GoString) : Values × Option UrlError :=
  if ch ';' ∈ key then (acc.1, some .semicolon)
  else if key = [] then acc
  else
    match cut (ch '=') key with
    | (k, v, _) =>
      match QueryUnescape k with
      | .error e => (acc.1, if acc.2 = none then some e else acc.2)
      | .ok k1 =>
        match QueryUnescape v with
        | .error e => (acc.1, if acc.2 = none then some e else acc.2)
        | .ok v1 => (acc.1.Add k1 v1, acc.2)

/-- Go's `url.ParseQuery(query)`: the map built from the segments between `&`, and the
first error met (`none` is Go's `nil` error). The loop `for query != ""` cuts one
segment off at each `&`; those are the segments of `strings.Split(query, "&")`, the
empty ones being skipped. -/
def ParseQuery (query : GoString) : Values × Option UrlError :=
  (splitOn (ch '&') query).foldl parseSegment ([], none)

/-- Go's `strings.IndexAny`-driven splitting of the older `parseQuery` (before Go 1.17):
the text is cut at every byte of `seps`. -/
def splitOnAny (seps : List Byte) : GoString → List GoString
  | [] => [[]]
  | c :: s =>
    if c ∈ seps then [] :: splitOnAny seps s
    else
      match splitOnAny seps s with
      | [] => [[c]]
      | seg :: segs => (c :: seg) :: segs

/-- One iteration of the loop of the older `parseQuery` (before Go 1.17): as
`parseSegment`, without the test for `;`, which was a separator then. -/
def parseSegmentLegacy (acc : Values × Option UrlError) (key : GoString) :
    Values × Option UrlError :=
  if key = [] then acc
  else
    match cut (ch '=') key with
    | (k, v, _) =>
      match QueryUnescape k with
      | .error e => (acc.1, if acc.2 = none then some e else acc.2)
      | .ok k1 =>
        match QueryUnescape v with
        | .error e => (acc.1, if acc.2 = none then some e else acc.2)
        | .ok v1 => (acc.1.Add k1 v1, acc.2)

/-- Go's `url.ParseQuery(query)` as it was before Go 1.17, the toolchain of the
repository's time: segments end at `&` or `;`. -/
def ParseQueryLegacy (query : GoString) : Values × Option UrlError :=
  (splitOnAny [ch '&', ch ';'] query).foldl parseSegmentLegacy ([], none)

/-! ## The field-set builder -/

/-- The constant `trackingId`. -/
def trackingId : GoString := str "UA-21815217-12"

/-- The constant `ApiEndpoint`. -/
def ApiEndpoint : GoString := str "https://ssl.google-analytics.com/collect"

/-- The function `sessionVals`: nine `Add` calls on an empty `url.Values`, then `Encode`. -/
def sessionVals (ip version clientId sc : GoString) : GoString :=
  let vals : Values := []
  let vals := vals.Add (str "v") (str "1")
  let vals := vals.Add (str "cid") clientId
  let vals := vals.Add (str "tid") trackingId
  let vals := vals.Add (str "uip") ip
  let vals := vals.Add (str "aip") (str "1")
  let vals := vals.Add (str "dp") (str "localhost")
  let vals := vals.Add (str "t") (str "pageview")
  let vals := vals.Add (str "cd1") version
  let vals := vals.Add (str "sc") sc
  vals.Encode

/-- The nine `Add` calls of `sessionVals`, in source order. -/
def sessionAdds (ip version clientId sc : GoString) : List (GoString × GoString) :=
  [(str "v", str "1"), (str "cid", clientId), (str "tid", trackingId), (str "uip", ip),
   (str "aip", str "1"), (str "dp", str "localhost"), (str "t", str "pageview"),
   (str "cd1", version), (str "sc", sc)]

/-- The map that `sessionVals` has built when it calls `Encode`, in insertion order. -/
def sessionFields (ip version clientId sc : GoString) : Values :=
  [(str "v", [str "1"]), (str "cid", [clientId]), (str "tid", [trackingId]), (str "uip", [ip]),
   (str "aip", [str "1"]), (str "dp", [str "localhost"]), (str "t", [str "pageview"]),
   (str "cd1", [version]), (str "sc", [sc])]

/-- The text `QueryEscape(k)=QueryEscape(v)` that `Encode` writes for one pair. -/
def pairText (k v : GoString) : GoString := QueryEscape k ++ ch '=' :: QueryEscape v

/-- Texts joined by `&`. -/
def joinAmp : List GoString → GoString
  | [] => []
  | [x] => x
  | x :: y :: r => x ++ ch '&' :: joinAmp (y :: r)

/-- The canonical encoding of a list of pairs: `k1=v1&k2=v2&...`, escaped. -/
def encodePairs (kvs : List (GoString × GoString)) : GoString :=
  joinAmp (kvs.map (fun kv => pairText kv.1 kv.2))

/-- The nine pairs of a session event in ascending key order. -/
def sessionPairs (ip version clientId sc : GoString) : List (GoString × GoString) :=
  [(str "aip", str "1"), (str "cd1", version), (str "cid", clientId), (str "dp", str "localhost"),
   (str "sc", sc), (str "t", str "pageview"), (str "tid", trackingId), (str "uip", ip),
   (str "v", str "1")]

/-- The map that `url.ParseQuery` builds from the text of a session event. -/
def sessionDecoded (ip version clientId sc : GoString) : Values :=
  [(str "aip", [str "1"]), (str "cd1", [version]), (str "cid", [clientId]),
   (str "dp", [str "localhost"]), (str "sc", [sc]), (str "t", [str "pageview"]),
   (str "tid", [trackingId]), (str "uip", [ip]), (str "v", [str "1"])]

/-- The escaping of one byte in the words of the specification: letters, digits and
`-`, `_`, `.`, `~` are kept, a space becomes `+`, every other byte becomes `%XX` with
`XX` its value in upper-case hexadecimal. -/
def escapeByteSpec (c : Byte) : GoString :=
  let hexDigit (n : Nat) : Byte := if n < 10 then Fin.ofNat (48 + n) else Fin.ofNat (65 + (n - 10))
  if (97 ≤ c.val ∧ c.val ≤ 122) ∨ (65 ≤ c.val ∧ c.val ≤ 90) ∨ (48 ≤ c.val ∧ c.val ≤ 57) ∨
      c = ch '-' ∨ c = ch '_' ∨ c = ch '.' ∨ c = ch '~' then [c]
  else if c = ch ' ' then [ch '+']
  else [ch '%', hexDigit (c.val / 16), hexDigit (c.val % 16)]

/-- The escaping of a string in the words of the specification, byte by byte. -/
def QueryEscapeSpec (s : GoString) : GoString := s.flatMap escapeByteSpec

/-! ## strconv and time -/

/-- The byte `'0' + d` of a decimal digit, with byte arithmetic. -/
def digitByte (d : Nat) : Byte := Fin.ofNat (d + 48)

/-- The digit loop of `strconv`'s `formatBits` in base 10: while `u >= 10` the last
digit is written in front of `a` and `u` is divided by 10; the remaining `u < 10` is
written last. `fuel` bounds the iterations; `FormatUint` passes enough. -/
def formatDec : Nat → Nat → GoString → GoString
  | 0, u, a => digitByte u :: a
  | fuel + 1, u, a =>
    if 10 ≤ u then formatDec fuel (u / 10) (digitByte (u % 10) :: a) else digitByte u :: a

/-- Go's `strconv.FormatUint(u, 10)`. -/
def FormatUint (u : Nat) : GoString := formatDec u u []

/-- Go's `strconv.FormatInt(i, 10)`: a minus sign and the digits of the magnitude. -/
def FormatInt (i : Int) : GoString :=
  if i < 0 then ch '-' :: FormatUint i.natAbs else FormatUint i.natAbs

/-- Go's `strconv.Itoa(i)`, which is `FormatInt(int64(i), 10)`. -/
def Itoa (i : Int) : GoString := FormatInt i

/-- The number a string of decimal digits denotes, most significant digit first. -/
def decimalValue (s : GoString) : Nat := s.foldl (fun v d => 10 * v + (d.val - 48)) 0

/-- The value of an integer expression stored in a signed 64-bit integer
(two's-complement wrap-around). -/
def wrapInt64 (x : Int) : Int := (x + 2 ^ 63) % 2 ^ 64 - 2 ^ 63

/-- Go's `math.MaxInt32`. -/
def MaxInt32 : Int := 2 ^ 31 - 1

/-- Go's `time.Second`, a `time.Duration` (an `int64` count of nanoseconds). -/
def Second : Int := 1000 * (1000 * (1000 * 1))

/-- The package variable `maxWaitForIP = math.MaxInt32 * time.Second`, as the exact
product of the constant expression. -/
def maxWaitForIP : Int := MaxInt32 * Second

/-- The expression `strconv.FormatInt(int64(maxWaitForIP/time.Second), 10)`: the
product is held in an `int64`, Go's `/` truncates towards zero. -/
def waitSeconds : GoString := FormatInt (wrapInt64 ((wrapInt64 maxWaitForIP).tdiv Second))

/-! ## Effects -/

/-- An error value (its text). -/
abbrev GoError := GoString

/-- One structured report to the diagnostic sink (`errors.Report` / `.Report()`):
the error text, the operation set by `WithOp` and the data set by `With`. -/
structure Report where
  desc : GoString
  op : Option GoString
  data : List (GoString × GoString)
  deriving DecidableEq, Repr

/-- The request value `r` that `trackSession` builds. `header` is the `http.Header`
map; both keys the package adds are already in canonical form. -/
structure Request where
  method : GoString
  url : GoString
  body : GoString
  header : Values
  deriving DecidableEq, Repr

/-- The observable effects of the package. -/
inductive Effect where
  /-- A report to the diagnostic sink. -/
  | report (r : Report)
  /-- A line `log.Debugf(format, arg)`. -/
  | debugf (format arg : GoString)
  /-- A send `httpClient.Do(r)`. -/
  | send (r : Request)
  /-- The call `resp.Body.Close()`. -/
  | closeBody
  /-- The write `addr.Store(ip)` of the resolved-IP holder. -/
  | store (ip : GoString)
  /-- A run-time panic. -/
  | panic
  deriving DecidableEq, Repr

/-- What the collaborators of one `trackSession` call return: the error of
`http.NewRequest`, the result of `httputil.DumpRequestOut`, the error of
`util.HTTPClient("", proxyAddrFN)`, the result of `httpClient.Do` (the response
status or an error) and the error of `resp.Body.Close()`. The proxy getter reaches
nothing but `util.HTTPClient`, so it is part of that outcome. -/
structure Outcome where
  newRequest : Option GoError
  dump : Except GoError GoString
  client : Option GoError
  doResult : Except GoError GoString
  close : Option GoError

/-- The call `errors.Report(err)`. -/
def reportErr (err : GoError) : Effect := .report { desc := err, op := none, data := [] }

/-- The request after `http.NewRequest("POST", ApiEndpoint, bytes.NewBufferString(args))`
and the two `r.Header.Add` calls. -/
def buildRequest (args : GoString) : Request :=
  let header : Values := []
  let header := header.Add (str "Content-Type") (str "application/x-www-form-urlencoded")
  let header := header.Add (str "Content-Length") (Itoa (len args))
  { method := str "POST", url := ApiEndpoint, body := args, header := header }

/-- Lines 105 to 109 of `trackSession`: the request is dumped; a failure of the dump is
reported with the operation "dump-request", otherwise the dump is logged. Neither ends
the function. -/
def dumpRequest (o : Outcome) : Effect :=
  match o.dump with
  | .error err => .report { desc := err, op := some (str "dump-request"), data := [] }
  | .ok req => .debugf (str "Full analytics request: %v") req

/-- The function `trackSession`: the effects it performs, in order. -/
def trackSession (o : Outcome) (args : GoString) : List Effect :=
  match o.newRequest with
  | some err => [reportErr err]
  | none =>
    let r := buildRequest args
    match o.client with
    | some err => [dumpRequest o, reportErr err]
    | none =>
      match o.doResult with
      | .error err => [dumpRequest o, .send r, reportErr err]
      | .ok status =>
        [dumpRequest o, .send r, .debugf (str "Successfully sent request to GA: %s") status,
          .closeBody] ++
          (match o.close with
           | some err => [.debugf (str "Unable to close response body: %v") err]
           | none => [])

/-- The function `endSession`. -/
def endSession (o : Outcome) (ip version clientId : GoString) : List Effect :=
  let args := sessionVals ip version clientId (str "end")
  trackSession o args

/-- The function `startSession`. -/
def startSession (o : Outcome) (ip version clientId : GoString) : List Effect :=
  let args := sessionVals ip version clientId (str "start")
  trackSession o args

/-- The requests sent (`httpClient.Do`) among a list of effects. -/
def sentRequests (es : List Effect) : List Request :=
  es.filterMap (fun e => match e with | .send r => some r | _ => none)

/-- The reports among a list of effects. -/
def reports (es : List Effect) : List Report :=
  es.filterMap (fun e => match e with | .report r => some r | _ => none)

/-! ## The lifecycle entry point `Start` -/

/-- The inputs of `Start`: the version string and `cfg.Client.DeviceID`, which the
package only reads. -/
structure Config where
  version : GoString
  deviceID : GoString

/-- The threads of control: the goroutine launched by `Start`, and the invocations of
the returned `stop` closure, numbered in the order in which they begin. -/
inductive Tid where
  | bg
  | stop (i : Nat)
  deriving DecidableEq, Repr

/-- The environment of one run: what `geolookup.GetIP(maxWaitForIP)` returns (the empty
string when no IP was found) and the outcomes of the collaborators of the one
`trackSession` call each thread can make. -/
structure World where
  geoIP : GoString
  outcome : Tid → Outcome

/-- The control points of the goroutine: before `GetIP`, at the test `ip == ""`, before
`addr.Store(ip)`, before `log.Debugf`, before `startSession`, and returned. -/
inductive BgPc where
  | getIP
  | check (ip : GoString)
  | store (ip : GoString)
  | debug (ip : GoString)
  | start (ip : GoString)
  | done
  deriving DecidableEq, Repr

/-- The control points of one invocation of `stop`: `skipped` when the guard
`addr.Load() != nil` was false and the closure returned; otherwise before the second
`addr.Load().(string)`, before `log.Debugf`, before `endSession`, and returned after
`endSession` (`done`); `panicked` when the type assertion failed. -/
inductive StopPc where
  | skipped
  | load
  | debug (ip : GoString)
  | endSession (ip : GoString)
  | done
  | panicked
  deriving DecidableEq, Repr

/-- The state of a run: the `atomic.Value` `addr` (`none` is the `nil` that `Load`
returns before any `Store`; only strings are ever stored), the control point of the
goroutine and of every invocation of `stop`, and the effects performed so far, each
with the thread that performed it. -/
structure State where
  addr : Option GoString
  bg : BgPc
  stops : List StopPc
  trace : List (Tid × Effect)

/-- What the scheduler can do next: let the goroutine take one step, let the caller
invoke `stop` (the invocation evaluates its guard `addr.Load() != nil`, its first access
to shared state, in the same step), or let the `i`-th invocation take one step. -/
inductive Action where
  | bg
  | call
  | stop (i : Nat)
  deriving DecidableEq, Repr

/-- The report `errors.New("No IP found").WithOp("geolookup").With("waitSeconds", ...)`. -/
def noIPReport : Report :=
  { desc := str "No IP found", op := some (str "geolookup"),
    data := [(str "waitSeconds", waitSeconds)] }

/-- The state with the effects `es` of thread `t` appended to the trace. -/
def State.emit (s : State) (t : Tid) (es : List Effect) : State :=
  { s with trace := s.trace ++ es.map (fun e => (t, e)) }

/-- One step of the goroutine launched by `Start`. -/
def bgStep (c : Config) (w : World) (s : State) : State :=
  match s.bg with
  | .getIP => { s with bg := .check w.geoIP }
  | .check ip =>
    if ip = [] then ({ s with bg := .done } : State).emit .bg [.report noIPReport]
    else { s with bg := .store ip }
  | .store ip => ({ s with addr := some ip, bg := .debug ip } : State).emit .bg [.store ip]
  | .debug ip =>
    ({ s with bg := .start ip } : State).emit .bg
      [.debugf (str "Starting analytics session with ip %v") ip]
  | .start ip =>
    ({ s with bg := .done } : State).emit .bg
      (startSession (w.outcome .bg) ip c.version c.deviceID)
  | .done => s

/-- The caller invokes `stop`; the guard `if addr.Load() != nil` is evaluated. -/
def callStop (s : State) : State :=
  { s with stops := s.stops ++ [if s.addr.isSome then StopPc.load else StopPc.skipped] }

/-- One step of the `i`-th invocation of `stop`. -/
def stopStep (c : Config) (w : World) (i : Nat) (s : State) : State :=
  match s.stops[i]? with
  | none => s
  | some .load =>
    match s.addr with
    | some ip => { s with stops := s.stops.set i (.debug ip) }
    | none => ({ s with stops := s.stops.set i .panicked } : State).emit (.stop i) [.panic]
  | some (.debug ip) =>
    ({ s with stops := s.stops.set i (.endSession ip) } : State).emit (.stop i)
      [.debugf (str "Ending analytics session with ip %v") ip]
  | some (.endSession ip) =>
    ({ s with stops := s.stops.set i .done } : State).emit (.stop i)
      (endSession (w.outcome (.stop i)) ip c.version c.deviceID)
  | some _ => s

/-- One scheduled step. -/
def step (c : Config) (w : World) (s : State) : Action → State
  | .bg => bgStep c w s
  | .call => callStop s
  | .stop i => stopStep c w i s

/-- The state right after `Start(cfg, version)` has returned the `stop` closure: the
holder is unwritten, the goroutine has been launched, nothing has been invoked. -/
def Start : State := { addr := none, bg := .getIP, stops := [], trace := [] }

/-- The state after the schedule `sched`. -/
def run (c : Config) (w : World) (sched : List Action) : State :=
  sched.foldl (step c w) Start

/-- The effects thread `t` has performed, in order. -/
def effectsOf (t : Tid) (tr : List (Tid × Effect)) : List Effect :=
  (tr.filter (fun e => e.1 = t)).map Prod.snd

/-- The requests thread `t` has sent, in order. -/
def sentBy (t : Tid) (tr : List (Tid × Effect)) : List Request := sentRequests (effectsOf t tr)

/-- The effects of the goroutine up to each control point. -/
def bgEffects (c : Config) (w : World) : BgPc → List Effect
  | .getIP | .check _ | .store _ => []
  | .debug ip => [.store ip]
  | .start ip => [.store ip, .debugf (str "Starting analytics session with ip %v") ip]
  | .done =>
    if w.geoIP = [] then [.report noIPReport]
    else [.store w.geoIP, .debugf (str "Starting analytics session with ip %v") w.geoIP] ++
      startSession (w.outcome .bg) w.geoIP c.version c.deviceID

/-- The content of the holder at each control point of the goroutine. -/
def bgAddr (w : World) : BgPc → Option GoString
  | .getIP | .check _ | .store _ => none
  | .debug _ | .start _ => some w.geoIP
  | .done => if w.geoIP = [] then none else some w.geoIP

/-- The local variable `ip` of the goroutine is what `GetIP` returned, and is not
empty past the test. -/
def bgValid (w : World) : BgPc → Prop
  | .getIP | .done => True
  | .check ip => ip = w.geoIP
  | .store ip | .debug ip | .start ip => ip = w.geoIP ∧ w.geoIP ≠ []

/-- The effects of the `i`-th invocation of `stop` up to each control point. -/
def stopEffects (c : Config) (w : World) (i : Nat) : StopPc → List Effect
  | .skipped | .load | .debug _ => []
  | .endSession ip => [.debugf (str "Ending analytics session with ip %v") ip]
  | .done =>
    [.debugf (str "Ending analytics session with ip %v") w.geoIP] ++
      endSession (w.outcome (.stop i)) w.geoIP c.version c.deviceID
  | .panicked => [.panic]

/-- An invocation of `stop` is past its guard only when the holder is written, and its
local variable `ip` is the stored value. -/
def stopValid (w : World) (addr : Option GoString) : StopPc → Prop
  | .skipped => True
  | .load | .done => addr = some w.geoIP
  | .debug ip | .endSession ip => addr = some w.geoIP ∧ ip = w.geoIP
  | .panicked => False

/-- The invariant of every reachable state. -/
structure Inv (c : Config) (w : World) (s : State) : Prop where
  bg_valid : bgValid w s.bg
  addr_eq : s.addr = bgAddr w s.bg
  bg_effects : effectsOf .bg s.trace = bgEffects c w s.bg
  stop_valid : ∀ (i : Nat) (pc : StopPc), s.stops[i]? = some pc → stopValid w s.addr pc
  stop_effects : ∀ (i : Nat) (pc : StopPc), s.stops[i]? = some pc →
    effectsOf (.stop i) s.trace = stopEffects c w i pc
  stop_none : ∀ i : Nat, s.stops.length ≤ i → effectsOf (.stop i) s.trace = []

/-- The state reached from `s` by the schedule `sched`. -/
def runFrom (c : Config) (w : World) (s : State) (sched : List Action) : State :=
  sched.foldl (step c w) s

/-- How many steps the goroutine has taken: each control point in program order; the
test `ip == ""` leads straight to the return when no IP was found. -/
def bgRank (w : World) : BgPc → Nat
  | .getIP => 0
  | .check _ => 1
  | .store _ => 2
  | .debug _ => 3
  | .start _ => 4
  | .done => if w.geoIP = [] then 2 else 5

/-- The number of steps after which the goroutine has returned. -/
def bgGoal (w : World) : Nat := if w.geoIP = [] then 2 else 5

/-- How many steps an invocation of `stop` has taken past a true guard; `none` for an
invocation that does not exist, skipped the body or panicked. -/
def stopRank : Option StopPc → Option Nat
  | some .load => some 0
  | some (.debug _) => some 1
  | some (.endSession _) => some 2
  | some .done => some 3
  | _ => none

/-- Whether an effect is a write of the resolved-IP holder. -/
def Effect.isStore : Effect → Bool
  | .store _ => true
  | _ => false

/-- The request of the session-start event of a run. -/
def startRequest (c : Config) (w : World) : Request :=
  buildRequest (sessionVals w.geoIP c.version c.deviceID (str "start"))

/-- The request of the session-end event of a run. -/
def endRequest (c : Config) (w : World) : Request :=
  buildRequest (sessionVals w.geoIP c.version c.deviceID (str "end"))

/-- Collaborators that all succeed: the dump reads `dump`, the response status is "200 OK". -/
def okOutcome : Outcome :=
  { newRequest := none, dump := .ok (str "dump"), client := none,
    doResult := .ok (str "200 OK"), close := none }

/-- A sample configuration: version "4.2.1" on the device "device-abc". -/
def sampleConfig : Config := { version := str "4.2.1", deviceID := str "device-abc" }

/-- A sample world: the resolver returns "203.0.113.5" and every collaborator succeeds. -/
def sampleWorld : World := { geoIP := str "203.0.113.5", outcome := fun _ => okOutcome }

/-- A sample world in which the resolver finds no IP. -/
def noIPWorld : World := { geoIP := [], outcome := fun _ => okOutcome }

/-- Collaborators among which `util.HTTPClient` fails with the error "no client". -/
def noClientOutcome : Outcome :=
  { newRequest := none, dump := .ok (str "dump"), client := some (str "no client"),
    doResult := .ok (str "200 OK"), close := none }

/-- A sample world: the resolver returns "203.0.113.5" and client construction fails in
every `trackSession` call. -/
def noClientWorld : World := { geoIP := str "203.0.113.5", outcome := fun _ => noClientOutcome }

/-- The schedule of two invocations of `stop` made one after the other, the `i`-th and
the next: each is invoked and given its three steps before anything else happens. -/
def stopTwice (i : Nat) : List Action :=
  [.call, .stop i, .stop i, .stop i, .call, .stop (i + 1), .stop (i + 1), .stop (i + 1)]

/-! # Theorems -/

theorem sessionVals_fields (ip version clientId sc : GoString) :
    sessionVals ip version clientId sc = (sessionFields ip version clientId sc).Encode := by
  rfl

theorem sessionFields_sorted (ip version clientId sc : GoString) :
    sortStrings (sessionFields ip version clientId sc).keys =
      [str "aip", str "cd1", str "cid", str "dp", str "sc", str "t", str "tid", str "uip",
        str "v"] := by
  have hk : (sessionFields ip version clientId sc).keys =
      [str "v", str "cid", str "tid", str "uip", str "aip", str "dp", str "t", str "cd1",
        str "sc"] := rfl
  rw [hk]
  decide

theorem pairText_ne_nil (k v : GoString) : pairText k v ≠ [] := by
  simp [pairText]

theorem encodeValues_single (ke buf v : GoString) :
    encodeValues ke buf [v] =
      (if buf = [] then ke ++ ch '=' :: QueryEscape v
        else buf ++ ch '&' :: (ke ++ ch '=' :: QueryEscape v)) := by
  cases buf with
  | nil => simp [encodeValues, len]
  | cons b bs => simp [encodeValues, len]

theorem encodeKeys_foldl (m : Values) (f : GoString → GoString) :
    ∀ (ks : List GoString) (buf : GoString), (∀ k ∈ ks, m.get k = [f k]) →
      ks.foldl (fun buf k => encodeValues (QueryEscape k) buf (m.get k)) buf =
        joinAmp ((if buf = [] then [] else [buf]) ++ ks.map (fun k => pairText k (f k))) := by
  intro ks
  induction ks with
  | nil =>
    intro buf _
    by_cases hb : buf = [] <;> simp [hb, joinAmp]
  | cons k ks ih =>
    intro buf h
    have hk : m.get k = [f k] := h k (List.mem_cons_self _ _)
    have hks : ∀ k ∈ ks, m.get k = [f k] := fun k hk => h k (List.mem_cons_of_mem _ hk)
    rw [List.foldl_cons, hk, encodeValues_single, ih _ hks]
    by_cases hb : buf = []
    · subst hb
      have : pairText k (f k) ≠ [] := pairText_ne_nil _ _
      simp only [pairText] at this
      simp [pairText, this]
    · have h2 : buf ++ ch '&' :: (QueryEscape k ++ ch '=' :: QueryEscape (f k)) ≠ [] := by simp [hb]
      simp only [hb, h2, if_false, List.map_cons, List.singleton_append]
      cases ks with
      | nil => simp [joinAmp, pairText]
      | cons k2 ks2 => simp [joinAmp, pairText]

theorem sessionVals_pairs (ip version clientId sc : GoString) :
    sessionVals ip version clientId sc = encodePairs (sessionPairs ip version clientId sc) := by
  rw [sessionVals_fields, Values.Encode, sessionFields_sorted, encodeKeys]
  rw [encodeKeys_foldl (sessionFields ip version clientId sc)
    (fun k => ((sessionFields ip version clientId sc).get k).headD [])]
  · rfl
  · intro k hk
    simp only [List.mem_cons, List.mem_singleton, List.not_mem_nil, or_false] at hk
    rcases hk with h | h | h | h | h | h | h | h | h <;> subst h <;> rfl

/-! ## Unescaping inverts escaping -/

set_option maxRecDepth 100000 in
theorem hex_roundtrip : ∀ c : Byte,
    ishex (upperhexAt (c.val >>> 4)) = true ∧ ishex (upperhexAt (c.val &&& 15)) = true ∧
      unhexPair (upperhexAt (c.val >>> 4)) (upperhexAt (c.val &&& 15)) = c := by
  decide

set_option maxRecDepth 100000 in
theorem unreserved_plain : ∀ c : Byte, shouldEscape c = false →
    c ≠ ch '%' ∧ c ≠ ch '+' ∧ c ≠ ch '&' ∧ c ≠ ch '=' ∧ c ≠ ch ';' := by
  decide

set_option maxRecDepth 100000 in
theorem upperhexAt_plain : ∀ c : Byte,
    (upperhexAt (c.val >>> 4) ≠ ch '&' ∧ upperhexAt (c.val >>> 4) ≠ ch '=' ∧
      upperhexAt (c.val >>> 4) ≠ ch ';') ∧
    (upperhexAt (c.val &&& 15) ≠ ch '&' ∧ upperhexAt (c.val &&& 15) ≠ ch '=' ∧
      upperhexAt (c.val &&& 15) ≠ ch ';') := by
  decide

theorem QueryUnescape_plain (c : Byte) (s : GoString) (h : c ≠ ch '%') :
    QueryUnescape (c :: s) =
      match QueryUnescape s with
      | .ok t => .ok ((if c = ch '+' then ch ' ' else c) :: t)
      | .error e => .error e := by
  conv_lhs => unfold QueryUnescape
  simp only [h, if_false]

theorem QueryUnescape_percent (a b : Byte) (rest : GoString) (ha : ishex a = true)
    (hb : ishex b = true) :
    QueryUnescape (ch '%' :: a :: b :: rest) =
      match QueryUnescape rest with
      | .ok t => .ok (unhexPair a b :: t)
      | .error e => .error e := by
  conv_lhs => unfold QueryUnescape
  simp only [ha, hb, and_self, if_true]

theorem QueryUnescape_QueryEscape (s : GoString) : QueryUnescape (QueryEscape s) = .ok s := by
  induction s with
  | nil => rfl
  | cons c s ih =>
    by_cases hsp : c = ch ' '
    · subst hsp
      have h1 : ch '+' ≠ ch '%' := by decide
      simp only [QueryEscape, if_true]
      rw [QueryUnescape_plain _ _ h1, ih]
      simp
    · by_cases hesc : shouldEscape c = true
      · obtain ⟨ha, hb, hc⟩ := hex_roundtrip c
        simp only [QueryEscape, hsp, hesc, if_true, if_false]
        rw [QueryUnescape_percent _ _ _ ha hb, ih, hc]
      · have hesc2 : shouldEscape c = false := by simpa using hesc
        obtain ⟨hp, hplus, -, -, -⟩ := unreserved_plain c hesc2
        simp only [QueryEscape, hsp, hesc2, if_false, Bool.false_eq_true]
        rw [QueryUnescape_plain _ _ hp, ih]
        simp [hplus]

theorem QueryEscape_plain (s : GoString) :
    ch '&' ∉ QueryEscape s ∧ ch '=' ∉ QueryEscape s ∧ ch ';' ∉ QueryEscape s := by
  induction s with
  | nil => simp [QueryEscape]
  | cons c s ih =>
    obtain ⟨i1, i2, i3⟩ := ih
    by_cases hsp : c = ch ' '
    · subst hsp
      have h1 : ch '&' ≠ ch '+' := by decide
      have h2 : ch '=' ≠ ch '+' := by decide
      have h3 : ch ';' ≠ ch '+' := by decide
      simp [QueryEscape, h1, h2, h3, i1, i2, i3]
    · by_cases hesc : shouldEscape c = true
      · obtain ⟨⟨a1, a2, a3⟩, ⟨b1, b2, b3⟩⟩ := upperhexAt_plain c
        have h1 : ch '&' ≠ ch '%' := by decide
        have h2 : ch '=' ≠ ch '%' := by decide
        have h3 : ch ';' ≠ ch '%' := by decide
        simp [QueryEscape, hsp, hesc, h1, h2, h3, i1, i2, i3, Ne.symm a1, Ne.symm a2, Ne.symm a3,
          Ne.symm b1, Ne.symm b2, Ne.symm b3]
      · have hesc2 : shouldEscape c = false := by simpa using hesc
        obtain ⟨-, -, c1, c2, c3⟩ := unreserved_plain c hesc2
        simp [QueryEscape, hsp, hesc2, i1, i2, i3, Ne.symm c1, Ne.symm c2, Ne.symm c3]

theorem splitOn_not_mem (sep : Byte) (a : GoString) (h : sep ∉ a) : splitOn sep a = [a] := by
  induction a with
  | nil => rfl
  | cons c a ih =>
    have hc : c ≠ sep := fun e => h (by simp [e])
    have ha : sep ∉ a := fun e => h (List.mem_cons_of_mem _ e)
    simp [splitOn, hc, ih ha]

theorem splitOn_append (sep : Byte) (a b : GoString) (h : sep ∉ a) :
    splitOn sep (a ++ sep :: b) = a :: splitOn sep b := by
  induction a with
  | nil => simp [splitOn]
  | cons c a ih =>
    have hc : c ≠ sep := fun e => h (by simp [e])
    have ha : sep ∉ a := fun e => h (List.mem_cons_of_mem _ e)
    simp [splitOn, hc, ih ha]

theorem cut_append (sep : Byte) (a b : GoString) (h : sep ∉ a) :
    cut sep (a ++ sep :: b) = (a, b, true) := by
  induction a with
  | nil => simp [cut]
  | cons c a ih =>
    have hc : c ≠ sep := fun e => h (by simp [e])
    have ha : sep ∉ a := fun e => h (List.mem_cons_of_mem _ e)
    simp [cut, hc, ih ha]

theorem pairText_plain (k v : GoString) : ch '&' ∉ pairText k v ∧ ch ';' ∉ pairText k v := by
  obtain ⟨k1, -, k3⟩ := QueryEscape_plain k
  obtain ⟨v1, -, v3⟩ := QueryEscape_plain v
  have h1 : ch '&' ≠ ch '=' := by decide
  have h3 : ch ';' ≠ ch '=' := by decide
  simp [pairText, k1, k3, v1, v3, h1, h3]

theorem parseSegment_pairText (acc : Values × Option UrlError) (k v : GoString) :
    parseSegment acc (pairText k v) = (acc.1.Add k v, acc.2) := by
  have hs := (pairText_plain k v).2
  have hne := pairText_ne_nil k v
  have hcut : cut (ch '=') (pairText k v) = (QueryEscape k, QueryEscape v, true) :=
    cut_append _ _ _ (QueryEscape_plain k).2.1
  simp [parseSegment, hs, hne, hcut, QueryUnescape_QueryEscape]

theorem splitOn_joinAmp (kvs : List (GoString × GoString)) (h : kvs ≠ []) :
    splitOn (ch '&') (encodePairs kvs) = kvs.map (fun kv => pairText kv.1 kv.2) := by
  induction kvs with
  | nil => exact absurd rfl h
  | cons kv kvs ih =>
    cases kvs with
    | nil => simpa [encodePairs, joinAmp] using splitOn_not_mem _ _ (pairText_plain kv.1 kv.2).1
    | cons kv2 kvs2 =>
      have ih2 := ih (by simp)
      simp only [encodePairs, List.map_cons, joinAmp] at ih2 ⊢
      rw [splitOn_append _ _ _ (pairText_plain kv.1 kv.2).1, ih2]

theorem foldl_parseSegment (kvs : List (GoString × GoString)) :
    ∀ acc : Values × Option UrlError,
      (kvs.map (fun kv => pairText kv.1 kv.2)).foldl parseSegment acc =
        (kvs.foldl (fun (m : Values) kv => m.Add kv.1 kv.2) acc.1, acc.2) := by
  induction kvs with
  | nil => intro acc; rfl
  | cons kv kvs ih =>
    intro acc
    simp only [List.map_cons, List.foldl_cons, parseSegment_pairText, ih]

/-- `ParseQuery` inverts the canonical encoding of any list of pairs. -/
theorem ParseQuery_encodePairs (kvs : List (GoString × GoString)) :
    ParseQuery (encodePairs kvs) =
      (kvs.foldl (fun (m : Values) kv => m.Add kv.1 kv.2) [], none) := by
  cases kvs with
  | nil => rfl
  | cons kv kvs =>
    rw [ParseQuery, splitOn_joinAmp _ (by simp), foldl_parseSegment]

set_option maxRecDepth 100000 in
theorem QueryEscape_byte : ∀ c : Byte, QueryEscape [c] = escapeByteSpec c := by
  decide

theorem QueryEscape_cons (c : Byte) (s : GoString) :
    QueryEscape (c :: s) = QueryEscape [c] ++ QueryEscape s := by
  simp only [QueryEscape]
  split
  · rfl
  · split <;> rfl

theorem QueryEscape_eq_spec (s : GoString) : QueryEscape s = QueryEscapeSpec s := by
  induction s with
  | nil => rfl
  | cons c s ih =>
    rw [QueryEscape_cons, ih, QueryEscape_byte]
    simp [QueryEscapeSpec]

/-! ## The order of the `Add` calls -/

theorem strLess_iff_lex : ∀ a b : GoString, strLess a b = true ↔ List.Lex (· < ·) a b := by
  intro a
  induction a with
  | nil =>
    intro b
    cases b with
    | nil => simp [strLess]
    | cons y ys => simp [strLess, List.Lex.nil]
  | cons x xs ih =>
    intro b
    cases b with
    | nil => simp [strLess]
    | cons y ys =>
      simp only [strLess]
      rcases lt_trichotomy x y with h | h | h
      · simp [h, List.Lex.rel h]
      · subst h
        simp [ih ys, List.Lex.cons_iff]
      · have h2 : ¬ x < y := not_lt_of_gt h
        simp only [h2, h, if_false, if_true]
        constructor
        · intro hf; exact absurd hf (by simp)
        · intro hl
          cases hl with
          | cons hl => exact absurd h (lt_irrefl _)
          | rel hl => exact absurd hl h2

theorem strLess_total (a b : GoString) : strLess b a = false ∨ strLess a b = false := by
  by_contra hc
  simp only [not_or, Bool.not_eq_false] at hc
  have h1 := (strLess_iff_lex _ _).mp hc.1
  have h2 := (strLess_iff_lex _ _).mp hc.2
  exact (List.Lex.isAsymm (· < ·)).asymm _ _ h1 h2

theorem strLess_antisymm (a b : GoString) (h1 : strLess b a = false) (h2 : strLess a b = false) :
    a = b := by
  rcases (List.Lex.isTrichotomous (· < ·)).trichotomous a b with h | h | h
  · rw [(strLess_iff_lex _ _).mpr h] at h2; exact absurd h2 (by simp)
  · exact h
  · rw [(strLess_iff_lex _ _).mpr h] at h1; exact absurd h1 (by simp)

theorem strLess_le_trans (a b c : GoString) (h1 : strLess b a = false) (h2 : strLess c b = false) :
    strLess c a = false := by
  by_contra hc
  simp only [Bool.not_eq_false] at hc
  have hca := (strLess_iff_lex _ _).mp hc
  rcases (List.Lex.isTrichotomous (· < ·)).trichotomous a b with h | h | h
  · have : List.Lex (· < ·) c b := IsTrans.trans (r := List.Lex (fun (x y : Byte) => x < y)) _ _ _ hca h
    rw [(strLess_iff_lex _ _).mpr this] at h2; exact absurd h2 (by simp)
  · subst h
    rw [hc] at h2; exact absurd h2 (by simp)
  · rw [(strLess_iff_lex _ _).mpr h] at h1; exact absurd h1 (by simp)

theorem sortStrings_eq_insertionSort (l : List GoString) :
    sortStrings l = List.insertionSort (fun a b => strLess b a = false) l := by
  have hins : ∀ (k : GoString) (xs : List GoString),
      insertString k xs = List.orderedInsert (fun a b => strLess b a = false) k xs := by
    intro k xs
    induction xs with
    | nil => rfl
    | cons x xs ih =>
      simp only [insertString, List.orderedInsert, ih]
      by_cases hx : strLess x k = true
      · simp [hx]
      · have hx2 : strLess x k = false := by simpa using hx
        simp [hx2]
  induction l with
  | nil => rfl
  | cons k ks ih => simp only [sortStrings, List.insertionSort, ih, hins]

theorem sortStrings_perm (l1 l2 : List GoString) (h : l1.Perm l2) :
    sortStrings l1 = sortStrings l2 := by
  haveI : IsTotal GoString (fun a b => strLess b a = false) := ⟨fun a b => strLess_total a b⟩
  haveI : IsTrans GoString (fun a b => strLess b a = false) :=
    ⟨fun a b c h1 h2 => strLess_le_trans a b c h1 h2⟩
  haveI : IsAntisymm GoString (fun a b => strLess b a = false) :=
    ⟨fun a b h1 h2 => strLess_antisymm a b h1 h2⟩
  rw [sortStrings_eq_insertionSort, sortStrings_eq_insertionSort]
  apply List.eq_of_perm_of_sorted (r := fun a b => strLess b a = false)
  · exact ((List.perm_insertionSort _ l1).trans h).trans (List.perm_insertionSort _ l2).symm
  · exact List.sorted_insertionSort _ l1
  · exact List.sorted_insertionSort _ l2

theorem get_Add (m : Values) (k v k2 : GoString) :
    (m.Add k v).get k2 = if k2 = k then m.get k ++ [v] else m.get k2 := by
  induction m with
  | nil =>
    by_cases h : k2 = k
    · subst h; simp [Values.Add, Values.get]
    · have h2 : ¬ k = k2 := fun e => h e.symm
      simp [Values.Add, Values.get, h, h2]
  | cons e m ih =>
    obtain ⟨k0, vs⟩ := e
    by_cases h0 : k0 = k
    · subst h0
      by_cases h : k2 = k0
      · subst h; simp [Values.Add, Values.get]
      · have h2 : ¬ k0 = k2 := fun e => h e.symm
        simp [Values.Add, Values.get, h, h2]
    · by_cases h : k2 = k
      · subst h
        simp [Values.Add, Values.get, h0, ih]
      · by_cases h3 : k0 = k2
        · simp [Values.Add, Values.get, h0, h, h3]
        · simp [Values.Add, Values.get, h0, h, h3, ih]

theorem keys_Add (m : Values) (k v : GoString) (h : k ∉ m.keys) :
    (m.Add k v).keys = m.keys ++ [k] := by
  induction m with
  | nil => rfl
  | cons e m ih =>
    obtain ⟨k0, vs⟩ := e
    have h0 : ¬ k0 = k := fun e => h (by simp [Values.keys, e])
    have h1 : k ∉ Values.keys m := fun e => h (by
      simp only [Values.keys, List.map_cons, List.mem_cons]
      exact Or.inr e)
    have := ih h1
    simp only [Values.keys] at this ⊢
    simp [Values.Add, h0, this]

theorem get_foldl_Add (kvs : List (GoString × GoString)) (k2 : GoString) :
    ∀ m : Values, (kvs.foldl (fun (m : Values) kv => m.Add kv.1 kv.2) m).get k2 =
      m.get k2 ++ (kvs.filter (fun kv => kv.1 = k2)).map Prod.snd := by
  induction kvs with
  | nil => intro m; simp
  | cons kv kvs ih =>
    intro m
    rw [List.foldl_cons, ih, get_Add]
    by_cases h : k2 = kv.1
    · subst h; simp
    · have h2 : ¬ kv.1 = k2 := fun e => h e.symm
      simp [h, h2]

theorem keys_foldl_Add (kvs : List (GoString × GoString)) :
    ∀ m : Values, (∀ kv ∈ kvs, kv.1 ∉ m.keys) → (kvs.map Prod.fst).Nodup →
      (kvs.foldl (fun (m : Values) kv => m.Add kv.1 kv.2) m).keys = m.keys ++ kvs.map Prod.fst := by
  induction kvs with
  | nil => intro m _ _; simp
  | cons kv kvs ih =>
    intro m hm hnd
    rw [List.map_cons, List.nodup_cons] at hnd
    have hk : kv.1 ∉ m.keys := hm kv (List.mem_cons_self _ _)
    rw [List.foldl_cons, ih]
    · rw [keys_Add m kv.1 kv.2 hk]; simp
    · intro kv2 h2
      rw [keys_Add m kv.1 kv.2 hk, List.mem_append, List.mem_singleton]
      rintro (h3 | h3)
      · exact hm kv2 (List.mem_cons_of_mem _ h2) h3
      · exact hnd.1 (h3 ▸ List.mem_map_of_mem Prod.fst h2)
    · exact hnd.2

theorem filter_key_length (kvs : List (GoString × GoString)) (k : GoString)
    (hnd : (kvs.map Prod.fst).Nodup) : (kvs.filter (fun kv => kv.1 = k)).length ≤ 1 := by
  induction kvs with
  | nil => simp
  | cons kv kvs ih =>
    rw [List.map_cons, List.nodup_cons] at hnd
    by_cases h : kv.1 = k
    · have hnone : kvs.filter (fun kv => kv.1 = k) = [] := by
        rw [List.filter_eq_nil_iff]
        intro kv2 h2 h3
        simp only [decide_eq_true_eq] at h3
        exact hnd.1 (by rw [h, ← h3]; exact List.mem_map_of_mem Prod.fst h2)
      simp [List.filter_cons, h, hnone]
    · simpa [List.filter_cons, h] using ih hnd.2

theorem perm_eq_of_length_le_one {α : Type} (l1 l2 : List α) (h : l1.Perm l2)
    (hl : l1.length ≤ 1) : l1 = l2 := by
  match l1, hl with
  | [], _ => exact h.nil_eq
  | [a], _ => exact (List.singleton_perm.mp h)

theorem encodeKeys_congr (m1 m2 : Values) (ks : List GoString)
    (h : ∀ k, m1.get k = m2.get k) : encodeKeys m1 ks = encodeKeys m2 ks := by
  simp only [encodeKeys, h]

/-- The encoding does not depend on the order of the `Add` calls when the keys differ. -/
theorem Encode_foldl_Add_perm (kvs1 kvs2 : List (GoString × GoString)) (h : kvs1.Perm kvs2)
    (hnd : (kvs2.map Prod.fst).Nodup) :
    (kvs1.foldl (fun (m : Values) kv => m.Add kv.1 kv.2) []).Encode =
      (kvs2.foldl (fun (m : Values) kv => m.Add kv.1 kv.2) []).Encode := by
  have hnd1 : (kvs1.map Prod.fst).Nodup := (h.map Prod.fst).nodup_iff.mpr hnd
  have hk1 := keys_foldl_Add kvs1 [] (by intro kv _; simp [Values.keys]) hnd1
  have hk2 := keys_foldl_Add kvs2 [] (by intro kv _; simp [Values.keys]) hnd
  have hkeys : sortStrings (kvs1.foldl (fun (m : Values) kv => m.Add kv.1 kv.2) []).keys =
      sortStrings (kvs2.foldl (fun (m : Values) kv => m.Add kv.1 kv.2) []).keys := by
    apply sortStrings_perm
    rw [hk1, hk2]
    simpa [Values.keys] using h.map Prod.fst
  rw [Values.Encode, Values.Encode, hkeys]
  apply encodeKeys_congr
  intro k
  rw [get_foldl_Add, get_foldl_Add]
  simp only [Values.get, List.nil_append]
  apply perm_eq_of_length_le_one
  · exact (h.filter _).map _
  · rw [List.length_map]
    exact filter_key_length kvs1 k hnd1

/-! ## The older `ParseQuery` -/

theorem splitOnAny_not_mem (seps : List Byte) (a : GoString) (h : ∀ b ∈ a, b ∉ seps) :
    splitOnAny seps a = [a] := by
  induction a with
  | nil => rfl
  | cons c a ih =>
    have hc : c ∉ seps := h c (List.mem_cons_self _ _)
    have ha : ∀ b ∈ a, b ∉ seps := fun b hb => h b (List.mem_cons_of_mem _ hb)
    simp [splitOnAny, hc, ih ha]

theorem splitOnAny_append (seps : List Byte) (a b : GoString) (sep : Byte) (hs : sep ∈ seps)
    (h : ∀ b ∈ a, b ∉ seps) :
    splitOnAny seps (a ++ sep :: b) = a :: splitOnAny seps b := by
  induction a with
  | nil => simp [splitOnAny, hs]
  | cons c a ih =>
    have hc : c ∉ seps := h c (List.mem_cons_self _ _)
    have ha : ∀ b ∈ a, b ∉ seps := fun b hb => h b (List.mem_cons_of_mem _ hb)
    simp [splitOnAny, hc, ih ha]

theorem pairText_no_separator (k v : GoString) :
    ∀ b ∈ pairText k v, b ∉ [ch '&', ch ';'] := by
  obtain ⟨h1, h2⟩ := pairText_plain k v
  intro b hb hm
  simp only [List.mem_cons, List.mem_singleton, List.not_mem_nil, or_false] at hm
  rcases hm with hm | hm
  · exact h1 (hm ▸ hb)
  · exact h2 (hm ▸ hb)

theorem parseSegmentLegacy_pairText (acc : Values × Option UrlError) (k v : GoString) :
    parseSegmentLegacy acc (pairText k v) = (acc.1.Add k v, acc.2) := by
  have hne := pairText_ne_nil k v
  have hcut : cut (ch '=') (pairText k v) = (QueryEscape k, QueryEscape v, true) :=
    cut_append _ _ _ (QueryEscape_plain k).2.1
  simp [parseSegmentLegacy, hne, hcut, QueryUnescape_QueryEscape]

theorem splitOnAny_joinAmp (kvs : List (GoString × GoString)) (h : kvs ≠ []) :
    splitOnAny [ch '&', ch ';'] (encodePairs kvs) = kvs.map (fun kv => pairText kv.1 kv.2) := by
  induction kvs with
  | nil => exact absurd rfl h
  | cons kv kvs ih =>
    cases kvs with
    | nil =>
      simpa [encodePairs, joinAmp] using
        splitOnAny_not_mem _ _ (pairText_no_separator kv.1 kv.2)
    | cons kv2 kvs2 =>
      have ih2 := ih (by simp)
      simp only [encodePairs, List.map_cons, joinAmp] at ih2 ⊢
      rw [splitOnAny_append _ _ _ _ (by simp) (pairText_no_separator kv.1 kv.2), ih2]

theorem foldl_parseSegmentLegacy (kvs : List (GoString × GoString)) :
    ∀ acc : Values × Option UrlError,
      (kvs.map (fun kv => pairText kv.1 kv.2)).foldl parseSegmentLegacy acc =
        (kvs.foldl (fun (m : Values) kv => m.Add kv.1 kv.2) acc.1, acc.2) := by
  induction kvs with
  | nil => intro acc; rfl
  | cons kv kvs ih =>
    intro acc
    simp only [List.map_cons, List.foldl_cons, parseSegmentLegacy_pairText, ih]

/-- The older `ParseQuery` inverts the canonical encoding of any list of pairs as well. -/
theorem ParseQueryLegacy_encodePairs (kvs : List (GoString × GoString)) :
    ParseQueryLegacy (encodePairs kvs) =
      (kvs.foldl (fun (m : Values) kv => m.Add kv.1 kv.2) [], none) := by
  cases kvs with
  | nil => rfl
  | cons kv kvs =>
    rw [ParseQueryLegacy, splitOnAny_joinAmp _ (by simp), foldl_parseSegmentLegacy]

/-! ## The field-set builder: claims -/

theorem foldl_Add_sessionPairs (ip version clientId sc : GoString) :
    (sessionPairs ip version clientId sc).foldl (fun (m : Values) kv => m.Add kv.1 kv.2) [] =
      sessionDecoded ip version clientId sc := by
  rfl

theorem ParseQuery_sessionVals (ip version clientId sc : GoString) :
    ParseQuery (sessionVals ip version clientId sc) =
      (sessionDecoded ip version clientId sc, none) := by
  rw [sessionVals_pairs, ParseQuery_encodePairs, foldl_Add_sessionPairs]

theorem ParseQueryLegacy_sessionVals (ip version clientId sc : GoString) :
    ParseQueryLegacy (sessionVals ip version clientId sc) =
      (sessionDecoded ip version clientId sc, none) := by
  rw [sessionVals_pairs, ParseQueryLegacy_encodePairs, foldl_Add_sessionPairs]

theorem sessionVals_adds (ip version clientId sc : GoString) :
    sessionVals ip version clientId sc =
      ((sessionAdds ip version clientId sc).foldl
        (fun (m : Values) kv => m.Add kv.1 kv.2) []).Encode := rfl

theorem sessionAdds_nodup (ip version clientId sc : GoString) :
    ((sessionAdds ip version clientId sc).map Prod.fst).Nodup := by
  have hk : (sessionAdds ip version clientId sc).map Prod.fst =
      [str "v", str "cid", str "tid", str "uip", str "aip", str "dp", str "t", str "cd1",
        str "sc"] := rfl
  rw [hk]
  decide

theorem sessionDecoded_keys (ip version clientId sc : GoString) :
    (sessionDecoded ip version clientId sc).keys =
      [str "aip", str "cd1", str "cid", str "dp", str "sc", str "t", str "tid", str "uip",
        str "v"] := rfl

theorem sessionKeys_nodup :
    [str "aip", str "cd1", str "cid", str "dp", str "sc", str "t", str "tid", str "uip",
      str "v"].Nodup := by
  decide

theorem sessionVals_text (ip version clientId sc : GoString) :
    sessionVals ip version clientId sc =
      str "aip=1&cd1=" ++ QueryEscape version ++ str "&cid=" ++ QueryEscape clientId ++
        str "&dp=localhost&sc=" ++ QueryEscape sc ++ str "&t=pageview&tid=UA-21815217-12&uip=" ++
        QueryEscape ip ++ str "&v=1" := by
  rw [sessionVals_pairs]
  simp only [encodePairs, sessionPairs, List.map, joinAmp, pairText, List.append_assoc]
  rfl

/-- C1: for every `ip`, `version`, `clientId` and every `control` in {"start", "end"},
`url.ParseQuery` of `sessionVals(ip, version, clientId, control)` (as it is since Go
1.17, and as it was before) returns no error and a map with exactly nine distinct keys, each holding exactly one value: `v=1`,
`cid=clientId`, `tid=UA-21815217-12`, `uip=ip`, `aip=1`, `dp=localhost`, `t=pageview`,
`cd1=version`, `sc=control`. The inputs are arbitrary byte strings, so none can add,
remove or alter another field. -/
theorem sessionVals_decodes (ip version clientId control : GoString)
    (hc : control = str "start" ∨ control = str "end") :
    ∃ m : Values, ParseQuery (sessionVals ip version clientId control) = (m, none) ∧
      ParseQueryLegacy (sessionVals ip version clientId control) = (m, none) ∧
      m.keys.Nodup ∧ m.keys.length = 9 ∧
      (∀ k ∈ m.keys, k ∈ [str "v", str "cid", str "tid", str "uip", str "aip", str "dp",
        str "t", str "cd1", str "sc"]) ∧
      m.get (str "v") = [str "1"] ∧ m.get (str "cid") = [clientId] ∧
      m.get (str "tid") = [str "UA-21815217-12"] ∧ m.get (str "uip") = [ip] ∧
      m.get (str "aip") = [str "1"] ∧ m.get (str "dp") = [str "localhost"] ∧
      m.get (str "t") = [str "pageview"] ∧ m.get (str "cd1") = [version] ∧
      m.get (str "sc") = [control] ∧ (control = str "start" ∨ control = str "end") := by
  refine ⟨sessionDecoded ip version clientId control, ParseQuery_sessionVals _ _ _ _,
    ParseQueryLegacy_sessionVals _ _ _ _, ?_, ?_, ?_,
    rfl, rfl, rfl, rfl, rfl, rfl, rfl, rfl, rfl, hc⟩
  · rw [sessionDecoded_keys]; exact sessionKeys_nodup
  · rfl
  · intro k hk
    rw [sessionDecoded_keys] at hk
    simp only [List.mem_cons, List.mem_singleton, List.not_mem_nil, or_false] at hk ⊢
    tauto

/-- Witness of C1: the concrete scenario of the specification,
`sessionVals("203.0.113.5", "4.2.1", "device-abc", "start")`. -/
theorem sessionVals_decodes_witness :
    ∃ m : Values,
      ParseQuery (sessionVals (str "203.0.113.5") (str "4.2.1") (str "device-abc") (str "start"))
        = (m, none) ∧
      ParseQueryLegacy
        (sessionVals (str "203.0.113.5") (str "4.2.1") (str "device-abc") (str "start"))
        = (m, none) ∧
      m.keys.Nodup ∧ m.keys.length = 9 ∧
      (∀ k ∈ m.keys, k ∈ [str "v", str "cid", str "tid", str "uip", str "aip", str "dp",
        str "t", str "cd1", str "sc"]) ∧
      m.get (str "v") = [str "1"] ∧ m.get (str "cid") = [str "device-abc"] ∧
      m.get (str "tid") = [str "UA-21815217-12"] ∧ m.get (str "uip") = [str "203.0.113.5"] ∧
      m.get (str "aip") = [str "1"] ∧ m.get (str "dp") = [str "localhost"] ∧
      m.get (str "t") = [str "pageview"] ∧ m.get (str "cd1") = [str "4.2.1"] ∧
      m.get (str "sc") = [str "start"] ∧ (str "start" = str "start" ∨ str "start" = str "end") :=
  sessionVals_decodes (str "203.0.113.5") (str "4.2.1") (str "device-abc") (str "start")
    (Or.inl rfl)

/-- C3: for every `ip`, `version`, `clientId` and `sc`, `sessionVals` returns the
canonical encoding, keys in ascending byte order and values query-escaped:
`aip=1&cd1=esc(version)&cid=esc(clientId)&dp=localhost&sc=esc(sc)&t=pageview&`
`tid=UA-21815217-12&uip=esc(ip)&v=1` with `esc` Go's `url.QueryEscape`, which keeps
letters, digits, `-`, `_`, `.`, `~`, turns a space into `+` and every other byte into
`%XX` in upper-case hex; in particular
`sessionVals("203.0.113.5", "4.2.1", "device-abc", "start")` is
`aip=1&cd1=4.2.1&cid=device-abc&dp=localhost&sc=start&t=pageview&tid=UA-21815217-12&`
`uip=203.0.113.5&v=1`; and the nine `Add` calls made in any other order encode to the
same text. -/
theorem sessionVals_canonical (ip version clientId sc : GoString) :
    sessionVals ip version clientId sc =
      str "aip=1&cd1=" ++ QueryEscape version ++ str "&cid=" ++ QueryEscape clientId ++
        str "&dp=localhost&sc=" ++ QueryEscape sc ++ str "&t=pageview&tid=UA-21815217-12&uip=" ++
        QueryEscape ip ++ str "&v=1" ∧
    sessionVals (str "203.0.113.5") (str "4.2.1") (str "device-abc") (str "start") =
      str ("aip=1&cd1=4.2.1&cid=device-abc&dp=localhost&sc=start&t=pageview" ++
        "&tid=UA-21815217-12&uip=203.0.113.5&v=1") ∧
    (∀ s : GoString, QueryEscape s = QueryEscapeSpec s) ∧
    (∀ adds : List (GoString × GoString), adds.Perm (sessionAdds ip version clientId sc) →
      (adds.foldl (fun (m : Values) kv => m.Add kv.1 kv.2) []).Encode =
        sessionVals ip version clientId sc) :=
  ⟨sessionVals_text ip version clientId sc, by decide, QueryEscape_eq_spec, fun adds h => by
    rw [sessionVals_adds]
    exact Encode_foldl_Add_perm adds _ h (sessionAdds_nodup ip version clientId sc)⟩

/-- C2: for every `ip`, `version` and `clientId`, `startSession` hands `trackSession`
the body `sessionVals(ip, version, clientId, "start")`, whose `sc` field decodes to
exactly "start", and `endSession` hands it `sessionVals(ip, version, clientId, "end")`,
whose `sc` field decodes to exactly "end"; the two bodies are the same text around the
`sc` value and decode to the same values under every other key. -/
theorem session_bodies (ip version clientId : GoString) :
    (∀ o, startSession o ip version clientId =
      trackSession o (sessionVals ip version clientId (str "start"))) ∧
    (∀ o, endSession o ip version clientId =
      trackSession o (sessionVals ip version clientId (str "end"))) ∧
    (∃ ms me : Values,
      ParseQuery (sessionVals ip version clientId (str "start")) = (ms, none) ∧
      ParseQuery (sessionVals ip version clientId (str "end")) = (me, none) ∧
      ms.get (str "sc") = [str "start"] ∧ me.get (str "sc") = [str "end"] ∧
      ms.keys = me.keys ∧ ∀ k, k ≠ str "sc" → ms.get k = me.get k) ∧
    (∃ pre post : GoString,
      pre = str "aip=1&cd1=" ++ QueryEscape version ++ str "&cid=" ++ QueryEscape clientId ++
        str "&dp=localhost&sc=" ∧
      sessionVals ip version clientId (str "start") = pre ++ str "start" ++ post ∧
      sessionVals ip version clientId (str "end") = pre ++ str "end" ++ post) := by
  refine ⟨fun _ => rfl, fun _ => rfl, ?_, ?_⟩
  · refine ⟨_, _, ParseQuery_sessionVals _ _ _ _, ParseQuery_sessionVals _ _ _ _, rfl, rfl, rfl, ?_⟩
    intro k hk
    have hk2 : ¬ (str "sc" = k) := fun h => hk h.symm
    simp only [sessionDecoded, Values.get, hk2, if_false]
  · refine ⟨_, str "&t=pageview&tid=UA-21815217-12&uip=" ++ QueryEscape ip ++ str "&v=1", rfl,
      ?_, ?_⟩
    · rw [sessionVals_text]
      have h : QueryEscape (str "start") = str "start" := by decide
      rw [h]
      simp only [List.append_assoc]
    · rw [sessionVals_text]
      have h : QueryEscape (str "end") = str "end" := by decide
      rw [h]
      simp only [List.append_assoc]

/-! ## strconv -/

theorem digitByte_val (k : Nat) (h : k < 10) : (digitByte k).val = k + 48 := by
  simp only [digitByte, Fin.ofNat, Fin.val_mk]
  omega

theorem formatDec_append (fuel : Nat) :
    ∀ (u : Nat) (a : GoString), formatDec fuel u a = formatDec fuel u [] ++ a := by
  induction fuel with
  | zero => intro u a; simp [formatDec]
  | succ fuel ih =>
    intro u a
    by_cases h : 10 ≤ u
    · simp only [formatDec, h, if_true]
      rw [ih (u / 10) (digitByte (u % 10) :: a), ih (u / 10) [digitByte (u % 10)]]
      simp
    · simp [formatDec, h]

theorem decimalValue_concat (xs : GoString) (d : Byte) :
    decimalValue (xs ++ [d]) = 10 * decimalValue xs + (d.val - 48) := by
  simp [decimalValue, List.foldl_append]

theorem decimalValue_formatDec (fuel : Nat) :
    ∀ u : Nat, u ≤ fuel → decimalValue (formatDec fuel u []) = u := by
  induction fuel with
  | zero =>
    intro u hu
    have : u = 0 := by omega
    subst this
    decide
  | succ fuel ih =>
    intro u hu
    by_cases h : 10 ≤ u
    · simp only [formatDec, h, if_true]
      rw [formatDec_append, decimalValue_concat, ih (u / 10) (by omega),
        digitByte_val _ (Nat.mod_lt _ (by decide))]
      omega
    · simp only [formatDec, h, if_false]
      have h2 := digitByte_val u (by omega)
      simp only [decimalValue, List.foldl_cons, List.foldl_nil, h2]
      omega

theorem formatDec_digits (fuel : Nat) :
    ∀ u : Nat, u ≤ fuel → ∀ d ∈ formatDec fuel u [], 48 ≤ d.val ∧ d.val ≤ 57 := by
  induction fuel with
  | zero =>
    intro u hu d hd
    have : u = 0 := by omega
    subst this
    simp only [formatDec, List.mem_singleton] at hd
    subst hd
    decide
  | succ fuel ih =>
    intro u hu d hd
    by_cases h : 10 ≤ u
    · simp only [formatDec, h, if_true] at hd
      rw [formatDec_append, List.mem_append, List.mem_singleton] at hd
      rcases hd with hd | hd
      · exact ih (u / 10) (by omega) d hd
      · subst hd
        rw [digitByte_val _ (Nat.mod_lt _ (by decide))]
        omega
    · simp only [formatDec, h, if_false, List.mem_singleton] at hd
      subst hd
      rw [digitByte_val u (by omega)]
      omega

theorem formatDec_head (fuel : Nat) :
    ∀ u : Nat, u ≤ fuel → u ≠ 0 → ∃ d rest, formatDec fuel u [] = d :: rest ∧ d ≠ ch '0' := by
  induction fuel with
  | zero => intro u hu h0; omega
  | succ fuel ih =>
    intro u hu h0
    by_cases h : 10 ≤ u
    · simp only [formatDec, h, if_true]
      obtain ⟨d, rest, h1, h2⟩ := ih (u / 10) (by omega) (by omega)
      rw [formatDec_append, h1]
      exact ⟨d, rest ++ [digitByte (u % 10)], rfl, h2⟩
    · simp only [formatDec, h, if_false]
      refine ⟨_, _, rfl, ?_⟩
      intro hc
      have h2 := digitByte_val u (by omega)
      rw [hc] at h2
      have h3 : (ch '0').val = 48 := by decide
      omega

theorem Itoa_len (s : GoString) : Itoa (len s) = FormatUint s.length := by
  simp [Itoa, FormatInt, len]

set_option maxRecDepth 100000 in
theorem unreserved_ascii : ∀ c : Byte, shouldEscape c = false → c.val < 128 := by
  decide

/-- The bytes of an escaped string are ASCII. -/
theorem QueryEscape_ascii (s : GoString) : ∀ b ∈ QueryEscape s, b.val < 128 := by
  have hhex : ∀ i : Fin 16, (upperhexAt i.val).val < 128 := by decide
  have hplain := unreserved_ascii
  induction s with
  | nil => simp [QueryEscape]
  | cons c s ih =>
    intro b hb
    by_cases hsp : c = ch ' '
    · simp only [QueryEscape, hsp, if_true, List.mem_cons] at hb
      rcases hb with hb | hb
      · subst hb; decide
      · exact ih b hb
    · by_cases hesc : shouldEscape c = true
      · simp only [QueryEscape, hsp, hesc, if_true, if_false, List.mem_cons] at hb
        rcases hb with hb | hb | hb | hb
        · subst hb; decide
        · subst hb
          have := hhex ⟨c.val >>> 4 % 16, Nat.mod_lt _ (by decide)⟩
          simpa [upperhexAt] using this
        · subst hb
          have := hhex ⟨(c.val &&& 15) % 16, Nat.mod_lt _ (by decide)⟩
          simpa [upperhexAt] using this
        · exact ih b hb
      · have hesc2 : shouldEscape c = false := by simpa using hesc
        simp only [QueryEscape, hsp, hesc2, if_false, Bool.false_eq_true, List.mem_cons] at hb
        rcases hb with hb | hb
        · rw [hb]; exact hplain c hesc2
        · exact ih b hb

theorem str_ascii_of (s : GoString) (h : s.all (fun b => decide (b.val < 128)) = true) :
    ∀ b ∈ s, b.val < 128 := by
  intro b hb
  have := List.all_eq_true.mp h b hb
  simpa using this

theorem sessionVals_ascii (ip version clientId sc : GoString) :
    ∀ b ∈ sessionVals ip version clientId sc, b.val < 128 := by
  intro b hb
  rw [sessionVals_text] at hb
  simp only [List.mem_append] at hb
  rcases hb with ((((((((hb | hb) | hb) | hb) | hb) | hb) | hb) | hb) | hb)
  · exact str_ascii_of _ (by decide) b hb
  · exact QueryEscape_ascii _ b hb
  · exact str_ascii_of _ (by decide) b hb
  · exact QueryEscape_ascii _ b hb
  · exact str_ascii_of _ (by decide) b hb
  · exact QueryEscape_ascii _ b hb
  · exact str_ascii_of _ (by decide) b hb
  · exact QueryEscape_ascii _ b hb
  · exact str_ascii_of _ (by decide) b hb

set_option maxRecDepth 100000 in
theorem utf8EncodeChar_ascii : ∀ n : Fin 128,
    (String.utf8EncodeChar (Char.ofNat n.val)).map UInt8.toNat = [n.val] := by
  decide

/-- An ASCII byte string is the UTF-8 encoding of a text with one character a byte. -/
theorem ascii_text (s : GoString) (h : ∀ b ∈ s, b.val < 128) :
    ∃ t : String, t.length = len s ∧ t.toUTF8.data.toList.map UInt8.toNat = s.map Fin.val := by
  refine ⟨String.mk (s.map (fun b => Char.ofNat b.val)), by simp [String.length, len], ?_⟩
  simp only [String.toUTF8]
  induction s with
  | nil => rfl
  | cons b s ih =>
    have hb : b.val < 128 := h b (List.mem_cons_self _ _)
    have hs : ∀ b ∈ s, b.val < 128 := fun b hb => h b (List.mem_cons_of_mem _ hb)
    have he := utf8EncodeChar_ascii ⟨b.val, hb⟩
    simp only [List.map_cons, List.flatMap_cons, List.map_append, he, ih hs]
    rfl

/-! ## The event sender: claims -/

theorem sentRequests_trackSession (o : Outcome) (args : GoString) :
    sentRequests (trackSession o args) =
      if o.newRequest = none ∧ o.client = none then [buildRequest args] else [] := by
  unfold trackSession dumpRequest
  cases o.newRequest <;> cases o.dump <;> cases o.client <;> cases o.doResult <;>
    cases o.close <;> simp [sentRequests, reportErr]

theorem mem_sentRequests (es : List Effect) (r : Request) :
    r ∈ sentRequests es ↔ Effect.send r ∈ es := by
  simp only [sentRequests, List.mem_filterMap]
  constructor
  · rintro ⟨e, he, h⟩
    cases e <;> simp at h
    subst h
    exact he
  · intro h
    exact ⟨_, h, rfl⟩

theorem reports_trackSession (o : Outcome) (args : GoString) :
    reports (trackSession o args) =
      match o.newRequest with
      | some err => [{ desc := err, op := none, data := [] }]
      | none =>
        reports [dumpRequest o] ++
          (match o.client with
           | some err => [{ desc := err, op := none, data := [] }]
           | none =>
             match o.doResult with
             | .error err => [{ desc := err, op := none, data := [] }]
             | .ok _ => []) := by
  unfold trackSession dumpRequest
  cases o.newRequest <;> cases o.dump <;> cases o.client <;> cases o.doResult <;>
    cases o.close <;> simp [reports, reportErr]

/-- C7: for every body `args`, when request and client construction succeed
`trackSession` performs `httpClient.Do` on exactly one request, and every request it
ever sends is a POST to `https://ssl.google-analytics.com/collect` with body `args`, a
`Content-Type` header of exactly `application/x-www-form-urlencoded` and a
`Content-Length` header that is the decimal representation of the byte length of `args`
(decimal digits only, no leading zero, denoting `len(args)`); a body produced by
`sessionVals` is pure ASCII, so it is the UTF-8 encoding of a text with as many
characters as the body has bytes. -/
theorem trackSession_request (args : GoString) :
    (∀ o : Outcome, o.newRequest = none → o.client = none →
      Effect.send (buildRequest args) ∈ trackSession o args ∧
      sentRequests (trackSession o args) = [buildRequest args]) ∧
    sentRequests (trackSession okOutcome args) = [buildRequest args] ∧
    (∀ (o : Outcome) (r : Request), Effect.send r ∈ trackSession o args →
      r.method = str "POST" ∧
      r.url = str "https://ssl.google-analytics.com/collect" ∧
      r.body = args ∧
      r.header.keys = [str "Content-Type", str "Content-Length"] ∧
      r.header.get (str "Content-Type") = [str "application/x-www-form-urlencoded"] ∧
      r.header.get (str "Content-Length") = [Itoa (len args)]) ∧
    (∀ o : Outcome, sentRequests (trackSession o args) = [] ∨
      sentRequests (trackSession o args) = [buildRequest args]) ∧
    (buildRequest args).method = str "POST" ∧
    (buildRequest args).url = str "https://ssl.google-analytics.com/collect" ∧
    (buildRequest args).body = args ∧
    (buildRequest args).header.keys = [str "Content-Type", str "Content-Length"] ∧
    (buildRequest args).header.get (str "Content-Type") =
      [str "application/x-www-form-urlencoded"] ∧
    (buildRequest args).header.get (str "Content-Length") = [Itoa (len args)] ∧
    decimalValue (Itoa (len args)) = len args ∧
    (∀ d ∈ Itoa (len args), ch '0' ≤ d ∧ d ≤ ch '9') ∧
    (Itoa (len args) = str "0" ∨ ∃ d rest, Itoa (len args) = d :: rest ∧ d ≠ ch '0') ∧
    (∀ ip version clientId sc : GoString,
      (∀ b ∈ sessionVals ip version clientId sc, b.val < 128) ∧
      ∃ t : String, t.length = len (sessionVals ip version clientId sc) ∧
        t.toUTF8.data.toList.map UInt8.toNat =
          (sessionVals ip version clientId sc).map Fin.val) := by
  refine ⟨?_, ?_, ?_, ?_, rfl, rfl, rfl, rfl, rfl, rfl, ?_, ?_, ?_, ?_⟩
  · intro o h1 h2
    refine ⟨(mem_sentRequests _ _).mp ?_, ?_⟩
    · rw [sentRequests_trackSession, if_pos ⟨h1, h2⟩]
      exact List.mem_singleton_self _
    · rw [sentRequests_trackSession, if_pos ⟨h1, h2⟩]
  · rw [sentRequests_trackSession]
    rfl
  · intro o r hr
    have hm := (mem_sentRequests _ _).mpr hr
    rw [sentRequests_trackSession] at hm
    split at hm
    · rw [List.mem_singleton] at hm
      subst hm
      exact ⟨rfl, rfl, rfl, rfl, rfl, rfl⟩
    · exact absurd hm (List.not_mem_nil _)
  · intro o
    rw [sentRequests_trackSession]
    by_cases h : o.newRequest = none ∧ o.client = none
    · exact Or.inr (if_pos h)
    · exact Or.inl (if_neg h)
  · rw [Itoa_len]
    exact decimalValue_formatDec _ _ (Nat.le_refl _)
  · intro d hd
    rw [Itoa_len] at hd
    have := formatDec_digits _ _ (Nat.le_refl _) d hd
    have h0 : (ch '0').val = 48 := by decide
    have h9 : (ch '9').val = 57 := by decide
    rw [Fin.le_def, Fin.le_def, h0, h9]
    exact this
  · rw [Itoa_len]
    by_cases h0 : args.length = 0
    · left
      rw [h0]
      decide
    · right
      exact formatDec_head _ _ (Nat.le_refl _) h0
  · intro ip version clientId sc
    exact ⟨sessionVals_ascii ip version clientId sc,
      ascii_text _ (sessionVals_ascii ip version clientId sc)⟩

/-- C8: in `trackSession`, a failure of request construction is reported to the
diagnostic sink (a report whose text is the error) and nothing else happens; a failure
of client construction is reported last, after the request dump, and nothing is sent; a
send is attempted at most once, exactly when both constructions succeeded; a send
failure is reported once, right after the one send, and nothing follows (no retry).
Besides the failure that ends the function the sink receives only the report of a
failed request dump. -/
theorem trackSession_failures (o : Outcome) (args : GoString) :
    (sentRequests (trackSession o args)).length ≤ 1 ∧
    (sentRequests (trackSession o args) =
      if o.newRequest = none ∧ o.client = none then [buildRequest args] else []) ∧
    sentRequests [dumpRequest o] = [] ∧
    (∀ e, o.dump = .error e → dumpRequest o =
      Effect.report { desc := e, op := some (str "dump-request"), data := [] }) ∧
    (∀ req, o.dump = .ok req → dumpRequest o =
      Effect.debugf (str "Full analytics request: %v") req) ∧
    (∀ err, o.newRequest = some err →
      trackSession o args = [Effect.report { desc := err, op := none, data := [] }] ∧
      reports (trackSession o args) = [{ desc := err, op := none, data := [] }] ∧
      sentRequests (trackSession o args) = []) ∧
    (∀ err, o.newRequest = none → o.client = some err →
      trackSession o args =
        [dumpRequest o, Effect.report { desc := err, op := none, data := [] }] ∧
      reports (trackSession o args) =
        reports [dumpRequest o] ++ [{ desc := err, op := none, data := [] }] ∧
      sentRequests (trackSession o args) = []) ∧
    (∀ err, o.newRequest = none → o.client = none → o.doResult = .error err →
      trackSession o args =
        [dumpRequest o, Effect.send (buildRequest args),
          Effect.report { desc := err, op := none, data := [] }] ∧
      reports (trackSession o args) =
        reports [dumpRequest o] ++ [{ desc := err, op := none, data := [] }] ∧
      sentRequests (trackSession o args) = [buildRequest args]) ∧
    (∀ status, o.newRequest = none → o.client = none → o.doResult = .ok status →
      reports (trackSession o args) = reports [dumpRequest o] ∧
      sentRequests (trackSession o args) = [buildRequest args]) ∧
    (∀ err, reportErr err = Effect.report { desc := err, op := none, data := [] }) := by
  have hs := sentRequests_trackSession o args
  have hr := reports_trackSession o args
  refine ⟨?_, hs, ?_, ?_, ?_, ?_, ?_, ?_, ?_, fun _ => rfl⟩
  · rw [hs]
    split <;> simp
  · simp only [dumpRequest]
    cases o.dump <;> rfl
  · intro e h
    simp [dumpRequest, h]
  · intro req h
    simp [dumpRequest, h]
  · intro err h
    refine ⟨by simp [trackSession, h, reportErr], ?_, ?_⟩
    · rw [hr, h]
    · rw [hs, h]; simp
  · intro err h1 h2
    refine ⟨by simp [trackSession, h1, h2, reportErr], ?_, ?_⟩
    · rw [hr, h1, h2]
    · rw [hs, h2]; simp
  · intro err h1 h2 h3
    refine ⟨by simp [trackSession, h1, h2, h3, reportErr], ?_, ?_⟩
    · rw [hr, h1, h2, h3]
    · rw [hs, if_pos ⟨h1, h2⟩]
  · intro status h1 h2 h3
    refine ⟨?_, ?_⟩
    · rw [hr, h1, h2, h3]; simp
    · rw [hs, if_pos ⟨h1, h2⟩]

/-- C9: the report made when the IP wait yields no IP carries the operation name
"geolookup" and a `waitSeconds` value of "2147483647", the configured wait in seconds:
`maxWaitForIP = math.MaxInt32 * time.Second = 2147483647 * 10^9` nanoseconds lies within
the signed 64-bit range, so holding it in an `int64` leaves it unchanged, and
`int64(maxWaitForIP / time.Second)` formatted in base 10 is exactly "2147483647". -/
theorem noIP_waitSeconds :
    noIPReport.desc = str "No IP found" ∧
    noIPReport.op = some (str "geolookup") ∧
    noIPReport.data = [(str "waitSeconds", str "2147483647")] ∧
    maxWaitForIP = 2147483647 * 10 ^ 9 ∧
    -(2 ^ 63) ≤ maxWaitForIP ∧ maxWaitForIP < 2 ^ 63 ∧
    wrapInt64 maxWaitForIP = maxWaitForIP ∧
    (wrapInt64 maxWaitForIP).tdiv Second = 2147483647 ∧
    waitSeconds = FormatInt 2147483647 ∧
    FormatInt 2147483647 = str "2147483647" ∧
    (∀ (c : Config) (w : World) (s : State), s.bg = .check [] →
      (bgStep c w s).trace = s.trace ++ [(Tid.bg, Effect.report noIPReport)] ∧
      (bgStep c w s).bg = .done) := by
  refine ⟨rfl, rfl, by decide, by decide, by decide, by decide, by decide, by decide, by decide,
    by decide, ?_⟩
  intro c w s h
  simp [bgStep, h, State.emit]

/-! ## The lifecycle machine: invariant -/

theorem effectsOf_emit (s : State) (t t2 : Tid) (es : List Effect) :
    effectsOf t (s.emit t2 es).trace = effectsOf t s.trace ++ (if t2 = t then es else []) := by
  by_cases h : t2 = t
  · subst h
    simp [effectsOf, State.emit, List.filter_append, List.filter_map, Function.comp_def]
  · simp [effectsOf, State.emit, List.filter_append, List.filter_map, Function.comp_def, h]

@[simp] theorem emit_bg (s : State) (t : Tid) (es : List Effect) : (s.emit t es).bg = s.bg := rfl

@[simp] theorem emit_addr (s : State) (t : Tid) (es : List Effect) :
    (s.emit t es).addr = s.addr := rfl

@[simp] theorem emit_stops (s : State) (t : Tid) (es : List Effect) :
    (s.emit t es).stops = s.stops := rfl

theorem Inv_Start (c : Config) (w : World) : Inv c w Start where
  bg_valid := trivial
  addr_eq := rfl
  bg_effects := rfl
  stop_valid := by intro i pc h; simp [Start] at h
  stop_effects := by intro i pc h; simp [Start] at h
  stop_none := by intro i _; rfl

theorem Inv_bgStep (c : Config) (w : World) (s : State) (h : Inv c w s) :
    Inv c w (bgStep c w s) := by
  obtain ⟨hv, ha, he, hsv, hse, hsn⟩ := h
  cases hpc : s.bg with
  | getIP =>
    simp only [hpc, bgValid, bgAddr, bgEffects] at hv ha he
    simp only [bgStep, hpc]
    exact ⟨rfl, ha, he, hsv, hse, hsn⟩
  | check ip =>
    simp only [hpc, bgValid, bgAddr, bgEffects] at hv ha he
    subst hv
    simp only [bgStep, hpc]
    by_cases hip : w.geoIP = []
    · simp only [hip, if_true]
      refine ⟨trivial, ?_, ?_, ?_, ?_, ?_⟩
      · simp [State.emit, bgAddr, hip, ha]
      · rw [effectsOf_emit]; simp [he, bgEffects, hip]
      · intro i pc hi
        have := hsv i pc hi
        cases pc <;> simp_all [stopValid, State.emit]
      · intro i pc hi
        rw [effectsOf_emit]
        simpa using hse i pc hi
      · intro i hi
        rw [effectsOf_emit]
        simpa using hsn i hi
    · simp only [hip, if_false]
      exact ⟨⟨rfl, hip⟩, ha, he, hsv, hse, hsn⟩
  | store ip =>
    simp only [hpc, bgValid, bgAddr, bgEffects] at hv ha he
    obtain ⟨hv1, hv2⟩ := hv
    subst hv1
    simp only [bgStep, hpc]
    refine ⟨⟨rfl, hv2⟩, ?_, ?_, ?_, ?_, ?_⟩
    · simp [State.emit, bgAddr]
    · rw [effectsOf_emit]; simp [he, bgEffects]
    · intro i pc hi
      have := hsv i pc hi
      cases pc <;> simp_all [stopValid, State.emit]
    · intro i pc hi
      rw [effectsOf_emit]
      simpa using hse i pc hi
    · intro i hi
      rw [effectsOf_emit]
      simpa using hsn i hi
  | debug ip =>
    simp only [hpc, bgValid, bgAddr, bgEffects] at hv ha he
    obtain ⟨hv1, hv2⟩ := hv
    subst hv1
    simp only [bgStep, hpc]
    refine ⟨⟨rfl, hv2⟩, ?_, ?_, ?_, ?_, ?_⟩
    · simp [State.emit, bgAddr, ha]
    · rw [effectsOf_emit]; simp [he, bgEffects]
    · intro i pc hi
      have := hsv i pc hi
      cases pc <;> simp_all [stopValid, State.emit]
    · intro i pc hi
      rw [effectsOf_emit]
      simpa using hse i pc hi
    · intro i hi
      rw [effectsOf_emit]
      simpa using hsn i hi
  | start ip =>
    simp only [hpc, bgValid, bgAddr, bgEffects] at hv ha he
    obtain ⟨hv1, hv2⟩ := hv
    subst hv1
    simp only [bgStep, hpc]
    refine ⟨trivial, ?_, ?_, ?_, ?_, ?_⟩
    · simp [State.emit, bgAddr, ha, hv2]
    · rw [effectsOf_emit]; simp [he, bgEffects, hv2]
    · intro i pc hi
      have := hsv i pc hi
      cases pc <;> simp_all [stopValid, State.emit]
    · intro i pc hi
      rw [effectsOf_emit]
      simpa using hse i pc hi
    · intro i hi
      rw [effectsOf_emit]
      simpa using hsn i hi
  | done =>
    simp only [bgStep, hpc]
    exact ⟨hv, ha, he, hsv, hse, hsn⟩

theorem bgAddr_eq_some (w : World) (pc : BgPc) (x : GoString) (h : bgAddr w pc = some x) :
    x = w.geoIP ∧ w.geoIP ≠ [] ∨ x = w.geoIP ∧ (∃ ip, pc = .debug ip ∨ pc = .start ip) := by
  cases pc <;> simp [bgAddr] at h
  · exact Or.inr ⟨h.symm, _, Or.inl rfl⟩
  · exact Or.inr ⟨h.symm, _, Or.inr rfl⟩
  · exact Or.inl ⟨h.2.symm, h.1⟩

theorem Inv_addr (c : Config) (w : World) (s : State) (h : Inv c w s) (x : GoString)
    (hx : s.addr = some x) : x = w.geoIP ∧ w.geoIP ≠ [] := by
  have h1 := h.addr_eq
  rw [hx] at h1
  have hv := h.bg_valid
  rcases bgAddr_eq_some w s.bg x h1.symm with h2 | ⟨h2, ip, h3 | h3⟩
  · exact h2
  · rw [h3] at hv; exact ⟨h2, hv.2⟩
  · rw [h3] at hv; exact ⟨h2, hv.2⟩

theorem Inv_callStop (c : Config) (w : World) (s : State) (h : Inv c w s) :
    Inv c w (callStop s) := by
  have haddr := Inv_addr c w s h
  obtain ⟨hv, ha, he, hsv, hse, hsn⟩ := h
  refine ⟨hv, ha, he, ?_, ?_, ?_⟩
  · intro i pc hi
    simp only [callStop] at hi ⊢
    rcases Nat.lt_trichotomy i s.stops.length with hlt | heq | hgt
    · rw [List.getElem?_append_left hlt] at hi
      exact hsv i pc hi
    · subst heq
      simp only [List.getElem?_concat_length, Option.some.injEq] at hi
      subst hi
      cases hadr : s.addr with
      | none => simp [stopValid]
      | some x => simp [stopValid, (haddr x hadr).1]
    · rw [List.getElem?_eq_none (by simp; omega)] at hi
      exact absurd hi (by simp)
  · intro i pc hi
    simp only [callStop] at hi ⊢
    rcases Nat.lt_trichotomy i s.stops.length with hlt | heq | hgt
    · rw [List.getElem?_append_left hlt] at hi
      exact hse i pc hi
    · subst heq
      simp only [List.getElem?_concat_length, Option.some.injEq] at hi
      subst hi
      rw [hsn _ (Nat.le_refl _)]
      cases s.addr <;> simp [stopEffects]
    · rw [List.getElem?_eq_none (by simp; omega)] at hi
      exact absurd hi (by simp)
  · intro i hi
    simp only [callStop, List.length_append, List.length_singleton] at hi ⊢
    exact hsn i (by omega)

theorem Inv_stopStep (c : Config) (w : World) (i : Nat) (s : State) (h : Inv c w s) :
    Inv c w (stopStep c w i s) := by
  obtain ⟨hv, ha, he, hsv, hse, hsn⟩ := h
  cases hpc : s.stops[i]? with
  | none =>
    simp only [stopStep, hpc]
    exact ⟨hv, ha, he, hsv, hse, hsn⟩
  | some pc =>
    have hlen : i < s.stops.length := by
      by_contra hge
      rw [List.getElem?_eq_none (by omega)] at hpc
      exact absurd hpc (by simp)
    have hvi := hsv i pc hpc
    have hei := hse i pc hpc
    cases pc with
    | skipped | done | panicked =>
      simp only [stopStep, hpc]
      exact ⟨hv, ha, he, hsv, hse, hsn⟩
    | load =>
      simp only [stopValid] at hvi
      simp only [stopStep, hpc, hvi]
      refine ⟨hv, hvi.symm.trans ha, he, ?_, ?_, ?_⟩
      · intro j pc hj
        simp only [List.getElem?_set, hlen, if_true] at hj
        by_cases hij : i = j
        · simp only [hij, if_true, Option.some.injEq] at hj
          subst hj
          simp [stopValid]
        · simp only [hij, if_false] at hj
          have := hsv j pc hj
          rw [hvi] at this
          exact this
      · intro j pc hj
        simp only [List.getElem?_set, hlen, if_true] at hj ⊢
        by_cases hij : i = j
        · simp only [hij, if_true, Option.some.injEq] at hj
          subst hj hij
          simpa [stopEffects] using hei
        · simp only [hij, if_false] at hj
          exact hse j pc hj
      · intro j hj
        simp only [List.length_set] at hj
        exact hsn j hj
    | debug ip =>
      simp only [stopValid] at hvi
      obtain ⟨hvi1, hvi2⟩ := hvi
      subst hvi2
      simp only [stopStep, hpc]
      refine ⟨hv, ha, ?_, ?_, ?_, ?_⟩
      · rw [effectsOf_emit]; simpa using he
      · intro j pc hj
        simp only [emit_stops, emit_addr, List.getElem?_set, hlen, if_true] at hj ⊢
        by_cases hij : i = j
        · simp only [hij, if_true, Option.some.injEq] at hj
          subst hj
          simp [stopValid, hvi1]
        · simp only [hij, if_false] at hj
          exact hsv j pc hj
      · intro j pc hj
        rw [effectsOf_emit]
        simp only [emit_stops, List.getElem?_set, hlen, if_true] at hj
        by_cases hij : i = j
        · simp only [hij, if_true, Option.some.injEq] at hj
          subst hj hij
          simp [stopEffects] at hei
          simp [stopEffects, hei]
        · simp only [hij, if_false] at hj
          simpa [hij] using hse j pc hj
      · intro j hj
        rw [effectsOf_emit]
        simp only [emit_stops, List.length_set] at hj
        have hij : i ≠ j := by omega
        simpa [hij] using hsn j hj
    | endSession ip =>
      simp only [stopValid] at hvi
      obtain ⟨hvi1, hvi2⟩ := hvi
      subst hvi2
      simp only [stopStep, hpc]
      refine ⟨hv, ha, ?_, ?_, ?_, ?_⟩
      · rw [effectsOf_emit]; simpa using he
      · intro j pc hj
        simp only [emit_stops, emit_addr, List.getElem?_set, hlen, if_true] at hj ⊢
        by_cases hij : i = j
        · simp only [hij, if_true, Option.some.injEq] at hj
          subst hj
          simp [stopValid, hvi1]
        · simp only [hij, if_false] at hj
          exact hsv j pc hj
      · intro j pc hj
        rw [effectsOf_emit]
        simp only [emit_stops, List.getElem?_set, hlen, if_true] at hj
        by_cases hij : i = j
        · simp only [hij, if_true, Option.some.injEq] at hj
          subst hj hij
          simp [stopEffects] at hei
          simp [stopEffects, hei]
        · simp only [hij, if_false] at hj
          simpa [hij] using hse j pc hj
      · intro j hj
        rw [effectsOf_emit]
        simp only [emit_stops, List.length_set] at hj
        have hij : i ≠ j := by omega
        simpa [hij] using hsn j hj

theorem Inv_step (c : Config) (w : World) (s : State) (a : Action) (h : Inv c w s) :
    Inv c w (step c w s a) := by
  cases a with
  | bg => exact Inv_bgStep c w s h
  | call => exact Inv_callStop c w s h
  | stop i => exact Inv_stopStep c w i s h

theorem Inv_foldl (c : Config) (w : World) (sched : List Action) :
    ∀ s, Inv c w s → Inv c w (sched.foldl (step c w) s) := by
  induction sched with
  | nil => intro s h; exact h
  | cons a sched ih => intro s h; exact ih _ (Inv_step c w s a h)

theorem Inv_run (c : Config) (w : World) (sched : List Action) : Inv c w (run c w sched) :=
  Inv_foldl c w sched Start (Inv_Start c w)

/-! ## The lifecycle machine: progress -/

theorem run_append (c : Config) (w : World) (s1 s2 : List Action) :
    run c w (s1 ++ s2) = runFrom c w (run c w s1) s2 := by
  simp [run, runFrom, List.foldl_append]

theorem runFrom_cons (c : Config) (w : World) (s : State) (a : Action) (sched : List Action) :
    runFrom c w s (a :: sched) = runFrom c w (step c w s a) sched := rfl

@[simp] theorem bgStep_stops (c : Config) (w : World) (s : State) :
    (bgStep c w s).stops = s.stops := by
  unfold bgStep
  split <;> try rfl
  split <;> rfl

@[simp] theorem callStop_bg (s : State) : (callStop s).bg = s.bg := rfl

@[simp] theorem callStop_addr (s : State) : (callStop s).addr = s.addr := rfl

@[simp] theorem callStop_trace (s : State) : (callStop s).trace = s.trace := rfl

@[simp] theorem stopStep_bg (c : Config) (w : World) (i : Nat) (s : State) :
    (stopStep c w i s).bg = s.bg := by
  unfold stopStep
  split <;> try rfl
  split <;> rfl

@[simp] theorem stopStep_addr (c : Config) (w : World) (i : Nat) (s : State) :
    (stopStep c w i s).addr = s.addr := by
  unfold stopStep
  split <;> try rfl
  split <;> rfl

theorem stopStep_other (c : Config) (w : World) (i j : Nat) (s : State) (h : j ≠ i) :
    (stopStep c w j s).stops[i]? = s.stops[i]? := by
  unfold stopStep
  split <;> try rfl
  · split <;> simp [List.getElem?_set, h]
  · simp [List.getElem?_set, h]
  · simp [List.getElem?_set, h]

theorem callStop_old (s : State) (i : Nat) (h : i < s.stops.length) :
    (callStop s).stops[i]? = s.stops[i]? := by
  simp only [callStop]
  exact List.getElem?_append_left h

theorem callStop_new (s : State) :
    (callStop s).stops[s.stops.length]? =
      some (if s.addr.isSome then StopPc.load else StopPc.skipped) := by
  simp [callStop]

theorem lt_of_getElem?_eq_some {α : Type} (l : List α) (i : Nat) (x : α) (h : l[i]? = some x) :
    i < l.length := by
  by_contra hge
  rw [List.getElem?_eq_none (by omega)] at h
  exact absurd h (by simp)

theorem bgRank_bgStep (c : Config) (w : World) (s : State) (h : Inv c w s) :
    bgRank w (bgStep c w s).bg = min (bgGoal w) (bgRank w s.bg + 1) := by
  have hv := h.bg_valid
  cases hpc : s.bg with
  | getIP => simp only [bgStep, hpc, bgRank, bgGoal]; split <;> simp
  | check ip =>
    rw [hpc] at hv
    simp only [bgValid] at hv
    subst hv
    by_cases hip : w.geoIP = []
    · simp [bgStep, hpc, hip, bgRank, bgGoal]
    · simp [bgStep, hpc, hip, bgRank, bgGoal]
  | store ip =>
    rw [hpc] at hv
    simp [bgStep, hpc, bgRank, bgGoal, hv.2]
  | debug ip =>
    rw [hpc] at hv
    simp [bgStep, hpc, bgRank, bgGoal, hv.2]
  | start ip =>
    rw [hpc] at hv
    simp [bgStep, hpc, bgRank, bgGoal, hv.2]
  | done =>
    simp only [bgStep, hpc, bgRank, bgGoal]
    split <;> simp

theorem bgRank_le_goal (w : World) (pc : BgPc) (h : bgValid w pc) : bgRank w pc ≤ bgGoal w := by
  cases pc <;> simp only [bgRank, bgGoal, bgValid] at * <;> split <;> simp_all

theorem bgRank_runFrom (c : Config) (w : World) (sched : List Action) :
    ∀ s, Inv c w s →
      bgRank w (runFrom c w s sched).bg = min (bgGoal w) (bgRank w s.bg + sched.count .bg) := by
  induction sched with
  | nil =>
    intro s h
    have := bgRank_le_goal w s.bg h.bg_valid
    simp only [runFrom, List.foldl_nil, List.count_nil, Nat.add_zero]
    omega
  | cons a sched ih =>
    intro s h
    rw [runFrom_cons, ih _ (Inv_step c w s a h)]
    cases a with
    | bg =>
      simp only [step, bgRank_bgStep c w s h, List.count_cons_self]
      omega
    | call => simp [step]
    | stop i => simp [step]

theorem bg_done_of_rank (w : World) (pc : BgPc) (hv : bgValid w pc)
    (h : bgRank w pc = bgGoal w) : pc = .done := by
  cases pc <;> simp only [bgRank, bgGoal, bgValid] at * <;> split at h <;> simp_all

theorem bg_done_of_count (c : Config) (w : World) (sched : List Action)
    (h : bgGoal w ≤ sched.count .bg) : (run c w sched).bg = .done := by
  have hr := bgRank_runFrom c w sched Start (Inv_Start c w)
  have hi := Inv_run c w sched
  apply bg_done_of_rank w _ hi.bg_valid
  have h0 : bgRank w Start.bg = 0 := rfl
  rw [run, ← runFrom, hr, h0]
  omega

theorem stopRank_stopStep (c : Config) (w : World) (i : Nat) (s : State) (h : Inv c w s)
    (r : Nat) (hr : stopRank s.stops[i]? = some r) :
    stopRank (stopStep c w i s).stops[i]? = some (min 3 (r + 1)) := by
  cases hpc : s.stops[i]? with
  | none => rw [hpc] at hr; simp [stopRank] at hr
  | some pc =>
    have hlen := lt_of_getElem?_eq_some _ _ _ hpc
    have hv := h.stop_valid i pc hpc
    rw [hpc] at hr
    cases pc with
    | skipped => simp [stopRank] at hr
    | panicked => simp [stopRank] at hr
    | load =>
      simp only [stopValid] at hv
      simp only [stopRank, Option.some.injEq] at hr
      subst hr
      simp [stopStep, hpc, hv, List.getElem?_set, hlen, stopRank]
    | debug ip =>
      simp only [stopRank, Option.some.injEq] at hr
      subst hr
      simp [stopStep, hpc, List.getElem?_set, hlen, stopRank]
    | endSession ip =>
      simp only [stopRank, Option.some.injEq] at hr
      subst hr
      simp [stopStep, hpc, List.getElem?_set, hlen, stopRank]
    | done =>
      simp only [stopRank, Option.some.injEq] at hr
      subst hr
      simp [stopStep, hpc, stopRank]

theorem stopRank_runFrom (c : Config) (w : World) (i : Nat) (sched : List Action) :
    ∀ (s : State) (r : Nat), Inv c w s → stopRank s.stops[i]? = some r → r ≤ 3 →
      stopRank (runFrom c w s sched).stops[i]? = some (min 3 (r + sched.count (.stop i))) := by
  induction sched with
  | nil =>
    intro s r _ hr h3
    simp only [runFrom, List.foldl_nil, List.count_nil, Nat.add_zero, hr]
    congr 1
    omega
  | cons a sched ih =>
    intro s r h hr h3
    rw [runFrom_cons]
    have hlen : i < s.stops.length := by
      cases hpc : s.stops[i]? with
      | none => rw [hpc] at hr; simp [stopRank] at hr
      | some pc => exact lt_of_getElem?_eq_some _ _ _ hpc
    cases a with
    | bg =>
      have h1 : stopRank (step c w s .bg).stops[i]? = some r := by
        simpa [step] using hr
      rw [ih _ r (Inv_step c w s _ h) h1 h3]
      simp
    | call =>
      have h1 : stopRank (step c w s .call).stops[i]? = some r := by
        simp only [step]
        rw [callStop_old s i hlen]
        exact hr
      rw [ih _ r (Inv_step c w s _ h) h1 h3]
      simp
    | stop j =>
      by_cases hji : j = i
      · subst hji
        have h1 : stopRank (step c w s (.stop j)).stops[j]? = some (min 3 (r + 1)) :=
          stopRank_stopStep c w j s h r hr
        rw [ih _ (min 3 (r + 1)) (Inv_step c w s _ h) h1 (by omega)]
        simp only [List.count_cons_self]
        congr 1
        omega
      · have h1 : stopRank (step c w s (.stop j)).stops[i]? = some r := by
          simp only [step]
          rw [stopStep_other c w i j s hji]
          exact hr
        rw [ih _ r (Inv_step c w s _ h) h1 h3]
        have hne : (Action.stop j == Action.stop i) = false := by simp [hji]
        simp [List.count_cons, hne]

theorem addr_runFrom (c : Config) (w : World) (sched : List Action) :
    ∀ (s : State) (ip : GoString), Inv c w s → s.addr = some ip →
      (runFrom c w s sched).addr = some ip := by
  induction sched with
  | nil => intro s ip _ h; exact h
  | cons a sched ih =>
    intro s ip hinv h
    rw [runFrom_cons]
    apply ih _ ip (Inv_step c w s a hinv)
    cases a with
    | call => exact h
    | stop j => simpa [step] using h
    | bg =>
      have ha := hinv.addr_eq
      have hv := hinv.bg_valid
      obtain ⟨hip1, hip2⟩ := Inv_addr c w s hinv ip h
      simp only [step]
      cases hpc : s.bg with
      | getIP => rw [hpc, h] at ha; simp [bgAddr] at ha
      | check x => rw [hpc, h] at ha; simp [bgAddr] at ha
      | store x => rw [hpc, h] at ha; simp [bgAddr] at ha
      | debug x => simp [bgStep, hpc, h]
      | start x => simp [bgStep, hpc, h]
      | done => simp [bgStep, hpc, h]

/-! ## The lifecycle machine: what each thread sends -/

theorem mem_effectsOf (t : Tid) (e : Effect) (tr : List (Tid × Effect)) (h : (t, e) ∈ tr) :
    e ∈ effectsOf t tr := by
  simp only [effectsOf, List.mem_map, List.mem_filter]
  exact ⟨(t, e), ⟨h, by simp⟩, rfl⟩

theorem trace_eq_of_tags (t : Tid) (tr : List (Tid × Effect)) (h : ∀ e ∈ tr, e.1 = t) :
    tr = (effectsOf t tr).map (fun e => (t, e)) := by
  induction tr with
  | nil => rfl
  | cons x tr ih =>
    have hx : x.1 = t := h x (List.mem_cons_self _ _)
    have ht : ∀ e ∈ tr, e.1 = t := fun e he => h e (List.mem_cons_of_mem _ he)
    have ih2 := ih ht
    simp only [effectsOf] at ih2 ⊢
    simp only [List.filter_cons, hx, decide_True, if_true, List.map_cons]
    rw [← ih2]
    obtain ⟨x1, x2⟩ := x
    simp only at hx
    subst hx
    rfl

theorem sentRequests_append (xs ys : List Effect) :
    sentRequests (xs ++ ys) = sentRequests xs ++ sentRequests ys := by
  simp [sentRequests, List.filterMap_append]

theorem sentRequests_startSession (o : Outcome) (ip version clientId : GoString) :
    sentRequests (startSession o ip version clientId) =
      if o.newRequest = none ∧ o.client = none then
        [buildRequest (sessionVals ip version clientId (str "start"))] else [] :=
  sentRequests_trackSession o _

theorem sentRequests_endSession (o : Outcome) (ip version clientId : GoString) :
    sentRequests (endSession o ip version clientId) =
      if o.newRequest = none ∧ o.client = none then
        [buildRequest (sessionVals ip version clientId (str "end"))] else [] :=
  sentRequests_trackSession o _

theorem sentBy_bg (c : Config) (w : World) (s : State) (h : Inv c w s) :
    sentBy .bg s.trace =
      if s.bg = .done ∧ w.geoIP ≠ [] ∧ (w.outcome .bg).newRequest = none ∧
          (w.outcome .bg).client = none then [startRequest c w] else [] := by
  rw [sentBy, h.bg_effects]
  cases hpc : s.bg with
  | done =>
    by_cases hip : w.geoIP = []
    · simp [bgEffects, hip, sentRequests]
    · simp only [bgEffects, hip, if_false]
      rw [show ∀ (a b : Effect) (l : List Effect), [a, b] ++ l = [a] ++ ([b] ++ l) from
        fun _ _ _ => rfl, sentRequests_append, sentRequests_append, sentRequests_startSession]
      simp [sentRequests, startRequest, hip]
  | getIP => simp [bgEffects, sentRequests]
  | check ip => simp [bgEffects, sentRequests]
  | store ip => simp [bgEffects, sentRequests]
  | debug ip => simp [bgEffects, sentRequests]
  | start ip => simp [bgEffects, sentRequests]

theorem sentBy_stop (c : Config) (w : World) (s : State) (h : Inv c w s) (i : Nat) :
    sentBy (.stop i) s.trace =
      if s.stops[i]? = some .done ∧ (w.outcome (.stop i)).newRequest = none ∧
          (w.outcome (.stop i)).client = none then [endRequest c w] else [] := by
  rw [sentBy]
  cases hpc : s.stops[i]? with
  | none =>
    have hlen : s.stops.length ≤ i := by
      by_contra hlt
      have hlt2 : i < s.stops.length := by omega
      rw [List.getElem?_eq_getElem hlt2] at hpc
      exact absurd hpc (by simp)
    rw [h.stop_none i hlen]
    simp [sentRequests]
  | some pc =>
    rw [h.stop_effects i pc hpc]
    cases pc with
    | done =>
      simp only [stopEffects]
      rw [sentRequests_append, sentRequests_endSession]
      simp [sentRequests, endRequest]
    | skipped => simp [stopEffects, sentRequests]
    | load => simp [stopEffects, sentRequests]
    | debug ip => simp [stopEffects, sentRequests]
    | endSession ip => simp [stopEffects, sentRequests]
    | panicked => simp [stopEffects, sentRequests]

theorem stopRank_done (o : Option StopPc) (h : stopRank o = some 3) : o = some .done := by
  cases o with
  | none => simp [stopRank] at h
  | some pc => cases pc <;> simp [stopRank] at h ⊢

theorem stop_after_write (c : Config) (w : World) (s1 s2 : List Action) (ip : GoString)
    (h : (run c w s1).addr = some ip) :
    stopRank (run c w (s1 ++ .call :: s2)).stops[(run c w s1).stops.length]? =
      some (min 3 (s2.count (.stop (run c w s1).stops.length))) := by
  rw [run_append, runFrom_cons]
  have hinv := Inv_step c w _ .call (Inv_run c w s1)
  have h0 : stopRank (step c w (run c w s1) .call).stops[(run c w s1).stops.length]? = some 0 := by
    simp only [step]
    rw [callStop_new, h]
    rfl
  rw [stopRank_runFrom c w _ s2 _ 0 hinv h0 (by omega)]
  simp

theorem buildRequest_body (args : GoString) : (buildRequest args).body = args := rfl

theorem session_fields_of (ip version clientId sc : GoString) :
    (ParseQuery (sessionVals ip version clientId sc)).2 = none ∧
    (ParseQuery (sessionVals ip version clientId sc)).1.get (str "sc") = [sc] ∧
    (ParseQuery (sessionVals ip version clientId sc)).1.get (str "uip") = [ip] ∧
    (ParseQuery (sessionVals ip version clientId sc)).1.get (str "cid") = [clientId] ∧
    (ParseQuery (sessionVals ip version clientId sc)).1.get (str "cd1") = [version] := by
  rw [ParseQuery_sessionVals]
  exact ⟨rfl, rfl, rfl, rfl, rfl⟩

/-! ## The lifecycle entry point: claims -/

/-- C4: in every run of `Start` in which the resolver returns a non-empty `ip` and the
request and client constructions succeed, the goroutine sends at most once under every
schedule and, once it has been given its five steps, has returned with exactly one send,
whose body has `sc=start` and `uip=ip`; an invocation of `stop` made after the goroutine
has returned sends at most once and, once it has been given its three steps, has
returned with exactly one send, whose body has `sc=end` and the same `uip`, `cid` and
`cd1` as the start event. -/
theorem start_then_stop (c : Config) (w : World) (hip : w.geoIP ≠ [])
    (hreq : ∀ t, (w.outcome t).newRequest = none) (hcl : ∀ t, (w.outcome t).client = none) :
    (∀ sched : List Action,
      (sentBy .bg (run c w sched).trace = [] ∨
        sentBy .bg (run c w sched).trace = [startRequest c w]) ∧
      ((run c w sched).bg = .done → sentBy .bg (run c w sched).trace = [startRequest c w]) ∧
      (5 ≤ sched.count .bg → (run c w sched).bg = .done)) ∧
    (∀ s1 s2 : List Action, (run c w s1).bg = .done →
      (sentBy (.stop (run c w s1).stops.length) (run c w (s1 ++ .call :: s2)).trace = [] ∨
        sentBy (.stop (run c w s1).stops.length) (run c w (s1 ++ .call :: s2)).trace =
          [endRequest c w]) ∧
      (3 ≤ s2.count (.stop (run c w s1).stops.length) →
        (run c w (s1 ++ .call :: s2)).stops[(run c w s1).stops.length]? = some .done ∧
        sentBy (.stop (run c w s1).stops.length) (run c w (s1 ++ .call :: s2)).trace =
          [endRequest c w])) ∧
    (startRequest c w).body = sessionVals w.geoIP c.version c.deviceID (str "start") ∧
    (endRequest c w).body = sessionVals w.geoIP c.version c.deviceID (str "end") ∧
    (ParseQuery (startRequest c w).body).2 = none ∧
    (ParseQuery (startRequest c w).body).1.get (str "sc") = [str "start"] ∧
    (ParseQuery (startRequest c w).body).1.get (str "uip") = [w.geoIP] ∧
    (ParseQuery (startRequest c w).body).1.get (str "cid") = [c.deviceID] ∧
    (ParseQuery (startRequest c w).body).1.get (str "cd1") = [c.version] ∧
    (ParseQuery (endRequest c w).body).2 = none ∧
    (ParseQuery (endRequest c w).body).1.get (str "sc") = [str "end"] ∧
    (ParseQuery (endRequest c w).body).1.get (str "uip") = [w.geoIP] ∧
    (ParseQuery (endRequest c w).body).1.get (str "cid") = [c.deviceID] ∧
    (ParseQuery (endRequest c w).body).1.get (str "cd1") = [c.version] := by
  obtain ⟨a1, a2, a3, a4, a5⟩ := session_fields_of w.geoIP c.version c.deviceID (str "start")
  obtain ⟨b1, b2, b3, b4, b5⟩ := session_fields_of w.geoIP c.version c.deviceID (str "end")
  have hsb : (startRequest c w).body = sessionVals w.geoIP c.version c.deviceID (str "start") :=
    buildRequest_body _
  have heb : (endRequest c w).body = sessionVals w.geoIP c.version c.deviceID (str "end") :=
    buildRequest_body _
  rw [hsb, heb]
  refine ⟨?_, ?_, rfl, rfl, a1, a2, a3, a4, a5, b1, b2, b3, b4, b5⟩
  · intro sched
    have hs := sentBy_bg c w _ (Inv_run c w sched)
    refine ⟨?_, ?_, ?_⟩
    · rw [hs]
      split
      · exact Or.inr rfl
      · exact Or.inl rfl
    · intro hd
      rw [hs, if_pos ⟨hd, hip, hreq _, hcl _⟩]
    · intro hn
      apply bg_done_of_count
      simp only [bgGoal, hip, if_false]
      exact hn
  · intro s1 s2 hd
    have hinv1 := Inv_run c w s1
    have haddr : (run c w s1).addr = some w.geoIP := by
      rw [hinv1.addr_eq, hd]
      simp [bgAddr, hip]
    have hs := sentBy_stop c w _ (Inv_run c w (s1 ++ .call :: s2)) (run c w s1).stops.length
    have hr := stop_after_write c w s1 s2 _ haddr
    refine ⟨?_, ?_⟩
    · rw [hs]
      split
      · exact Or.inr rfl
      · exact Or.inl rfl
    · intro hn
      have hdone : (run c w (s1 ++ .call :: s2)).stops[(run c w s1).stops.length]? =
          some .done := by
        apply stopRank_done
        rw [hr, Nat.min_eq_left hn]
      refine ⟨hdone, ?_⟩
      rw [hs]
      exact if_pos ⟨hdone, hreq _, hcl _⟩

/-- Witness of C4: the resolver returns "203.0.113.5", every collaborator succeeds; the
goroutine runs to its end, then `stop` is invoked and runs to its end. -/
theorem start_then_stop_witness :
    sampleWorld.geoIP ≠ [] ∧
    sentBy .bg (run sampleConfig sampleWorld [.bg, .bg, .bg, .bg, .bg]).trace =
      [startRequest sampleConfig sampleWorld] ∧
    sentBy (.stop 0) (run sampleConfig sampleWorld
        ([.bg, .bg, .bg, .bg, .bg] ++ .call :: [.stop 0, .stop 0, .stop 0])).trace =
      [endRequest sampleConfig sampleWorld] ∧
    (startRequest sampleConfig sampleWorld).body = str
      ("aip=1&cd1=4.2.1&cid=device-abc&dp=localhost&sc=start&t=pageview" ++
        "&tid=UA-21815217-12&uip=203.0.113.5&v=1") ∧
    (endRequest sampleConfig sampleWorld).body = str
      ("aip=1&cd1=4.2.1&cid=device-abc&dp=localhost&sc=end&t=pageview" ++
        "&tid=UA-21815217-12&uip=203.0.113.5&v=1") :=
  have h := start_then_stop sampleConfig sampleWorld (by decide) (fun _ => rfl) (fun _ => rfl)
  ⟨by decide, (h.1 [.bg, .bg, .bg, .bg, .bg]).2.1 (h.1 _ |>.2.2 (by decide)),
    ((h.2.1 [.bg, .bg, .bg, .bg, .bg] [.stop 0, .stop 0, .stop 0]
      (h.1 _ |>.2.2 (by decide))).2 (by decide)).2, by decide, by decide⟩

theorem stops_skipped_of_unwritten (c : Config) (w : World) (s : State) (h : Inv c w s)
    (ha : s.addr = none) (i : Nat) (pc : StopPc) (hpc : s.stops[i]? = some pc) :
    pc = .skipped := by
  have hv := h.stop_valid i pc hpc
  rw [ha] at hv
  cases pc <;> simp [stopValid] at hv ⊢

theorem effectsOf_stop_of_unwritten (c : Config) (w : World) (s : State) (h : Inv c w s)
    (ha : s.addr = none) (i : Nat) : effectsOf (.stop i) s.trace = [] := by
  cases hpc : s.stops[i]? with
  | none =>
    apply h.stop_none
    by_contra hlt
    have hlt2 : i < s.stops.length := by omega
    rw [List.getElem?_eq_getElem hlt2] at hpc
    exact absurd hpc (by simp)
  | some pc =>
    rw [h.stop_effects i pc hpc, stops_skipped_of_unwritten c w s h ha i pc hpc]
    rfl

theorem tags_bg_of_unwritten (c : Config) (w : World) (s : State) (h : Inv c w s)
    (ha : s.addr = none) : ∀ e ∈ s.trace, e.1 = Tid.bg := by
  intro e he
  obtain ⟨t, x⟩ := e
  cases t with
  | bg => rfl
  | stop i =>
    have := mem_effectsOf _ _ _ he
    rw [effectsOf_stop_of_unwritten c w s h ha i] at this
    exact absurd this (List.not_mem_nil _)

theorem addr_none_of_noIP (c : Config) (w : World) (s : State) (h : Inv c w s)
    (hip : w.geoIP = []) : s.addr = none := by
  cases ha : s.addr with
  | none => rfl
  | some ip => exact absurd hip (Inv_addr c w s h ip ha).2

theorem bgEffects_noIP (c : Config) (w : World) (s : State) (h : Inv c w s)
    (hip : w.geoIP = []) :
    bgEffects c w s.bg = if s.bg = .done then [.report noIPReport] else [] := by
  have hv := h.bg_valid
  cases hpc : s.bg with
  | done => simp [bgEffects, hip]
  | getIP => simp [bgEffects]
  | check ip => simp [bgEffects]
  | store ip => rw [hpc] at hv; exact absurd hip hv.2
  | debug ip => rw [hpc] at hv; exact absurd hip hv.2
  | start ip => rw [hpc] at hv; exact absurd hip hv.2

/-- C5: in every run of `Start` in which the resolver returns the empty string, under
every schedule the holder is never written, nothing is sent by any thread, no invocation
of `stop` gets past its guard or performs any effect, and the only effect of the whole
run is the one diagnostic report of the goroutine, made by the time it has taken its two
steps. -/
theorem no_ip_suppresses (c : Config) (w : World) (hip : w.geoIP = []) (sched : List Action) :
    (run c w sched).addr = none ∧
    (∀ e ∈ (run c w sched).trace, e.2.isStore = false) ∧
    (∀ t, sentBy t (run c w sched).trace = []) ∧
    (run c w sched).trace =
      (if (run c w sched).bg = .done then [(Tid.bg, Effect.report noIPReport)] else []) ∧
    reports (effectsOf .bg (run c w sched).trace) =
      (if (run c w sched).bg = .done then [noIPReport] else []) ∧
    (2 ≤ sched.count .bg → (run c w sched).bg = .done) ∧
    (∀ i, effectsOf (.stop i) (run c w sched).trace = []) ∧
    (∀ (i : Nat) (pc : StopPc), (run c w sched).stops[i]? = some pc → pc = .skipped) := by
  have hinv := Inv_run c w sched
  have ha := addr_none_of_noIP c w _ hinv hip
  have hbg := bgEffects_noIP c w _ hinv hip
  have htr : (run c w sched).trace =
      (if (run c w sched).bg = .done then [(Tid.bg, Effect.report noIPReport)] else []) := by
    rw [trace_eq_of_tags .bg _ (tags_bg_of_unwritten c w _ hinv ha), hinv.bg_effects, hbg]
    split <;> rfl
  refine ⟨ha, ?_, ?_, htr, ?_, ?_, effectsOf_stop_of_unwritten c w _ hinv ha,
    stops_skipped_of_unwritten c w _ hinv ha⟩
  · intro e he
    rw [htr] at he
    split at he
    · simp only [List.mem_singleton] at he
      subst he
      rfl
    · exact absurd he (List.not_mem_nil _)
  · intro t
    rw [sentBy, htr]
    split <;> cases t <;> simp [effectsOf, sentRequests]
  · rw [hinv.bg_effects, hbg]
    split <;> simp [reports]
  · intro hn
    apply bg_done_of_count
    simp only [bgGoal, hip, if_true]
    exact hn

/-- Witness of C5: the resolver finds no IP; `stop` is invoked before, while and after
the goroutine runs; the whole run performs the one report and nothing else. -/
theorem no_ip_suppresses_witness :
    noIPWorld.geoIP = [] ∧
    (run sampleConfig noIPWorld [.call, .bg, .call, .stop 0, .bg, .call, .stop 2, .stop 1]).trace =
      [(Tid.bg, Effect.report noIPReport)] ∧
    (∀ t, sentBy t
      (run sampleConfig noIPWorld
        [.call, .bg, .call, .stop 0, .bg, .call, .stop 2, .stop 1]).trace = []) :=
  have h := no_ip_suppresses sampleConfig noIPWorld rfl
    [.call, .bg, .call, .stop 0, .bg, .call, .stop 2, .stop 1]
  ⟨rfl, h.2.2.2.1.trans (if_pos (h.2.2.2.2.2.1 (by decide))), h.2.2.1⟩

/-- Counterexample to C10 as stated: the resolver has returned the non-empty
"203.0.113.5", yet two invocations of `stop` made one after the other send nothing.
First, with every collaborator succeeding, when the goroutine holds the resolver's
answer but has not stored it yet: both invocations find the holder unwritten and skip
their body. Second, with the holder written and the start event attempted, when client
construction fails: both invocations run to their end, each reports the failure and
neither sends. -/
theorem stop_twice_counterexample :
    (sampleWorld.geoIP = str "203.0.113.5" ∧ sampleWorld.geoIP ≠ [] ∧
      (run sampleConfig sampleWorld [.bg, .bg]).bg = .store (str "203.0.113.5") ∧
      (run sampleConfig sampleWorld [.bg, .bg]).stops.length = 0 ∧
      (run sampleConfig sampleWorld ([.bg, .bg] ++ stopTwice 0)).stops = [.skipped, .skipped] ∧
      sentRequests ((run sampleConfig sampleWorld ([.bg, .bg] ++ stopTwice 0)).trace.map
        Prod.snd) = []) ∧
    (noClientWorld.geoIP = str "203.0.113.5" ∧
      (run sampleConfig noClientWorld [.bg, .bg, .bg, .bg, .bg]).bg = .done ∧
      (run sampleConfig noClientWorld [.bg, .bg, .bg, .bg, .bg]).addr =
        some (str "203.0.113.5") ∧
      (run sampleConfig noClientWorld [.bg, .bg, .bg, .bg, .bg]).stops.length = 0 ∧
      (run sampleConfig noClientWorld ([.bg, .bg, .bg, .bg, .bg] ++ stopTwice 0)).stops =
        [.done, .done] ∧
      sentRequests ((run sampleConfig noClientWorld
        ([.bg, .bg, .bg, .bg, .bg] ++ stopTwice 0)).trace.map Prod.snd) = [] ∧
      reports (effectsOf (.stop 0) (run sampleConfig noClientWorld
        ([.bg, .bg, .bg, .bg, .bg] ++ stopTwice 0)).trace) =
        [{ desc := str "no client", op := none, data := [] }] ∧
      reports (effectsOf (.stop 1) (run sampleConfig noClientWorld
        ([.bg, .bg, .bg, .bg, .bg] ++ stopTwice 0)).trace) =
        [{ desc := str "no client", op := none, data := [] }]) := by
  refine ⟨⟨rfl, by decide, by decide, by decide, by decide, by decide⟩,
    ⟨rfl, by decide, by decide, by decide, by decide, by decide, by decide, by decide⟩⟩

/-- C10 (amended): `stop` only reads the resolved-IP holder and never clears it: once
the goroutine has stored the resolver's `ip` in the holder, the holder holds `ip` after
every further schedule, and two invocations of `stop` made one after the other (the
first has returned before the second begins), in both of which request and client
construction succeed, each send the end event, with `sc=end` and the same `uip=ip`, so
the end event is sent twice. -/
theorem stop_twice_sends_twice (c : Config) (w : World) (ip : GoString)
    (s1 s2 s3 : List Action) (h : (run c w s1).addr = some ip)
    (hreq1 : (w.outcome (.stop (run c w s1).stops.length)).newRequest = none)
    (hcl1 : (w.outcome (.stop (run c w s1).stops.length)).client = none)
    (hreq2 : (w.outcome (.stop (run c w (s1 ++ .call :: s2)).stops.length)).newRequest = none)
    (hcl2 : (w.outcome (.stop (run c w (s1 ++ .call :: s2)).stops.length)).client = none)
    (h2 : 3 ≤ s2.count (.stop (run c w s1).stops.length))
    (h3 : 3 ≤ s3.count (.stop (run c w (s1 ++ .call :: s2)).stops.length)) :
    (run c w (s1 ++ .call :: s2)).stops[(run c w s1).stops.length]? = some .done ∧
    sentBy (.stop (run c w s1).stops.length) (run c w (s1 ++ .call :: s2)).trace =
      [endRequest c w] ∧
    (run c w s1).stops.length < (run c w (s1 ++ .call :: s2)).stops.length ∧
    sentBy (.stop (run c w s1).stops.length)
      (run c w ((s1 ++ .call :: s2) ++ .call :: s3)).trace = [endRequest c w] ∧
    sentBy (.stop (run c w (s1 ++ .call :: s2)).stops.length)
      (run c w ((s1 ++ .call :: s2) ++ .call :: s3)).trace = [endRequest c w] ∧
    (∀ sched, (run c w (s1 ++ sched)).addr = some ip) ∧
    ip = w.geoIP ∧ ip ≠ [] ∧
    (ParseQuery (endRequest c w).body).2 = none ∧
    (ParseQuery (endRequest c w).body).1.get (str "sc") = [str "end"] ∧
    (ParseQuery (endRequest c w).body).1.get (str "uip") = [ip] := by
  have hinv1 := Inv_run c w s1
  obtain ⟨hip1, hip2⟩ := Inv_addr c w _ hinv1 ip h
  have hkeep : ∀ sched, (run c w (s1 ++ sched)).addr = some ip := by
    intro sched
    rw [run_append]
    exact addr_runFrom c w sched _ ip hinv1 h
  have hr1 := stop_after_write c w s1 s2 ip h
  rw [Nat.min_eq_left h2] at hr1
  have hd1 := stopRank_done _ hr1
  have hr2 := stop_after_write c w (s1 ++ .call :: s2) s3 ip (hkeep _)
  rw [Nat.min_eq_left h3] at hr2
  have hd2 := stopRank_done _ hr2
  have hlt := lt_of_getElem?_eq_some _ _ _ hd1
  -- the first invocation stays returned while the second runs
  have hd1b : (run c w ((s1 ++ .call :: s2) ++ .call :: s3)).stops[(run c w s1).stops.length]? =
      some .done := by
    apply stopRank_done
    rw [run_append]
    have := stopRank_runFrom c w (run c w s1).stops.length (.call :: s3)
      (run c w (s1 ++ .call :: s2)) 3 (Inv_run c w _) hr1 (Nat.le_refl _)
    rw [this]
    congr 1
    omega
  have hb : (endRequest c w).body = sessionVals w.geoIP c.version c.deviceID (str "end") :=
    buildRequest_body _
  obtain ⟨b1, b2, b3, -, -⟩ := session_fields_of w.geoIP c.version c.deviceID (str "end")
  refine ⟨hd1, ?_, hlt, ?_, ?_, hkeep, hip1, hip1 ▸ hip2, ?_, ?_, ?_⟩
  · rw [sentBy_stop c w _ (Inv_run c w _)]
    exact if_pos ⟨hd1, hreq1, hcl1⟩
  · rw [sentBy_stop c w _ (Inv_run c w _)]
    exact if_pos ⟨hd1b, hreq1, hcl1⟩
  · rw [sentBy_stop c w _ (Inv_run c w _)]
    exact if_pos ⟨hd2, hreq2, hcl2⟩
  · rw [hb]; exact b1
  · rw [hb]; exact b2
  · rw [hb, hip1]; exact b3

/-- Witness of C10: the goroutine has stored "203.0.113.5" and sent the start event;
`stop` is invoked, runs to its end, is invoked again and runs to its end. -/
theorem stop_twice_sends_twice_witness :
    (run sampleConfig sampleWorld [.bg, .bg, .bg, .bg, .bg]).addr = some (str "203.0.113.5") ∧
    sentBy (.stop 0) (run sampleConfig sampleWorld
      (([.bg, .bg, .bg, .bg, .bg] ++ .call :: [.stop 0, .stop 0, .stop 0]) ++
        .call :: [.stop 1, .stop 1, .stop 1])).trace = [endRequest sampleConfig sampleWorld] ∧
    sentBy (.stop 1) (run sampleConfig sampleWorld
      (([.bg, .bg, .bg, .bg, .bg] ++ .call :: [.stop 0, .stop 0, .stop 0]) ++
        .call :: [.stop 1, .stop 1, .stop 1])).trace = [endRequest sampleConfig sampleWorld] :=
  have h := stop_twice_sends_twice sampleConfig sampleWorld (str "203.0.113.5")
    [.bg, .bg, .bg, .bg, .bg] [.stop 0, .stop 0, .stop 0] [.stop 1, .stop 1, .stop 1]
    rfl rfl rfl rfl rfl (by decide) (by decide)
  ⟨rfl, h.2.2.2.1, h.2.2.2.2.1⟩

end Analytics
